import Mathlib

/-!
Verification of the finAIgent conversational data-orchestration engine.

The definitions below are a shallow embedding of the repository's source:
`server/src/services/finance.js`, `server/src/services/annualReport.js`,
`server/src/services/financeCN.js`, `server/src/services/company.js`,
`server/src/services/companyCN.js`, `server/src/db/memory.js`,
`server/src/index.js`, and `go-service/main.go`.  JavaScript numbers are
modelled as exact rationals (`ℚ`), except where the source computes a
fractional power (`Math.pow`), which is modelled over `ℝ` or abstracted as a
function parameter.  External collaborators (HTTP providers, local data
files, language-model calls) are modelled as explicit function / data
parameters, mirroring the spec's collaborator contracts.
-/

/-- A point of a financial fact series, `{fy, value, unit}`, as produced and
consumed by `server/src/services/finance.js` and the local CN decoders. -/
structure FactPoint where
  fy : Int
  value : ℚ
  unit : String
deriving DecidableEq, Repr

/-- `yoy(series)` from `server/src/services/finance.js` lines 3-11: walk the
series pairing each element with its predecessor *by array position*; skip a
pair whose previous value is `0`; emit `(cur-prev)/prev` at `cur.fy` with unit
`ratio`.  The same loop appears inline in `annualReport.js` (`getFromLocal`,
RevenueYoY). -/
def yoy : List FactPoint → List FactPoint
  | p :: q :: rest =>
      (if p.value = 0 then []
       else [⟨q.fy, (q.value - p.value) / p.value, "ratio"⟩]) ++ yoy (q :: rest)
  | _ => []

/-- Specification-side YoY, written from the spec's words (§4.3): for each
year `t` where the metric has points at `t-1` and `t` and the prior value is
nonzero, emit `(value[t]-value[t-1])/value[t-1]` at `t`; skipped when the
prior value is `0`.  Used only to compare the source's `yoy` against the
claimed per-year behaviour. -/
def yoySpec (s : List FactPoint) : List FactPoint :=
  s.filterMap (fun cur =>
    match s.find? (fun p => p.fy = cur.fy - 1) with
    | none => none
    | some prev =>
        if prev.value = 0 then none
        else some ⟨cur.fy, (cur.value - prev.value) / prev.value, "ratio"⟩)

/-- In a chain of year-consecutive points, every later point has a strictly
larger fiscal year than the head. -/
theorem chain_fy_lt (p : FactPoint) (l : List FactPoint)
    (h : List.Chain' (fun a b => b.fy = a.fy + 1) (p :: l)) :
    ∀ x ∈ l, p.fy < x.fy := by
  induction l generalizing p with
  | nil => intro x hx; cases hx
  | cons q l ih =>
      rw [List.chain'_cons] at h
      obtain ⟨h1, h2⟩ := h
      intro x hx
      rw [List.mem_cons] at hx
      rcases hx with hx | hx
      · subst hx; omega
      · have := ih q h2 x hx
        omega

/-- `yoy` on a year-consecutive series emits exactly the per-year differences
required by the spec (membership form). -/
theorem yoy_mem_of_consec (s : List FactPoint)
    (h : List.Chain' (fun a b => b.fy = a.fy + 1) s) (z : FactPoint) :
    z ∈ yoy s ↔ ∃ prev, prev ∈ s ∧ ∃ cur, cur ∈ s ∧ cur.fy = prev.fy + 1 ∧
      prev.value ≠ 0 ∧ z = ⟨cur.fy, (cur.value - prev.value) / prev.value, "ratio"⟩ := by
  induction s with
  | nil => simp [yoy]
  | cons p tl ih =>
      cases tl with
      | nil =>
          rw [show yoy [p] = [] from rfl]
          simp only [List.not_mem_nil, false_iff]
          rintro ⟨prev, hprev, cur, hcur, hfy, -, -⟩
          rw [List.mem_singleton] at hprev hcur
          subst hprev; subst hcur; omega
      | cons q rest =>
          rw [List.chain'_cons] at h
          obtain ⟨h1, h2⟩ := h
          have hchain : List.Chain' (fun a b => b.fy = a.fy + 1) (p :: q :: rest) :=
            List.chain'_cons.2 ⟨h1, h2⟩
          rw [show yoy (p :: q :: rest) =
                (if p.value = 0 then []
                 else [⟨q.fy, (q.value - p.value) / p.value, "ratio"⟩]) ++ yoy (q :: rest)
              from rfl]
          constructor
          · intro hz
            rcases List.mem_append.1 hz with hz | hz
            · by_cases hp : p.value = 0
              · rw [if_pos hp] at hz; cases hz
              · rw [if_neg hp, List.mem_singleton] at hz
                exact ⟨p, List.mem_cons_self _ _,
                  q, List.mem_cons_of_mem _ (List.mem_cons_self _ _), h1, hp, hz⟩
            · rcases (ih h2).1 hz with ⟨prev, hprev, cur, hcur, hfy, hv, he⟩
              exact ⟨prev, List.mem_cons_of_mem _ hprev,
                cur, List.mem_cons_of_mem _ hcur, hfy, hv, he⟩
          · rintro ⟨prev, hprev, cur, hcur, hfy, hv, he⟩
            rw [List.mem_cons] at hprev
            rcases hprev with hprev | hprev
            · -- prev is the head p; then cur must be q
              subst hprev
              have hcq : cur = q := by
                rw [List.mem_cons] at hcur
                rcases hcur with hcur | hcur
                · subst hcur; exact absurd hfy (by omega)
                · rw [List.mem_cons] at hcur
                  rcases hcur with hcur | hcur
                  · exact hcur
                  · exfalso
                    have := chain_fy_lt q rest h2 cur hcur
                    omega
              subst hcq
              refine List.mem_append.2 (Or.inl ?_)
              rw [if_neg hv, List.mem_singleton]
              exact he
            · -- prev lies in the tail; then so does cur
              have hcur' : cur ∈ q :: rest := by
                rw [List.mem_cons] at hcur
                rcases hcur with hcur | hcur
                · exfalso
                  have hlt := chain_fy_lt p (q :: rest) hchain prev hprev
                  rw [hcur] at hfy
                  omega
                · exact hcur
              exact List.mem_append.2 (Or.inr ((ih h2).2
                ⟨prev, hprev, cur, hcur', hfy, hv, he⟩))

/-- C3: (amended) `yoy` pairs *consecutive array entries* (skipping a pair
whose prior value is `0`), so on a series whose fiscal years are consecutive
it emits a point at year `t` exactly when the series has points at `t-1` and
`t` with nonzero prior value, with value `(value[t]-value[t-1])/value[t-1]`
and unit `ratio`; the spec's concrete example evaluates as stated.  (On a
series with year gaps it instead differences the two neighbouring entries,
see `c3_counterexample`.) -/
theorem c3_theorem :
    (∀ s, List.Chain' (fun a b => b.fy = a.fy + 1) s → ∀ z,
        (z ∈ yoy s ↔ ∃ prev, prev ∈ s ∧ ∃ cur, cur ∈ s ∧ cur.fy = prev.fy + 1 ∧
          prev.value ≠ 0 ∧ z = ⟨cur.fy, (cur.value - prev.value) / prev.value, "ratio"⟩))
  ∧ yoy [⟨2021, 100, "CNY"⟩, ⟨2022, 120, "CNY"⟩, ⟨2023, 90, "CNY"⟩] =
      [⟨2022, 1/5, "ratio"⟩, ⟨2023, -(1/4), "ratio"⟩] :=
  ⟨yoy_mem_of_consec, by norm_num [yoy]⟩

/-- C3: counterexample to the claim as stated.  On the gapped series
`[(2020,100),(2022,120)]` the source's `yoy` emits a point at 2022 even
though the series has no point at 2021, while the per-year rule claimed by
the spec (`yoySpec`) emits nothing. -/
theorem c3_counterexample :
    yoy [⟨2020, 100, "CNY"⟩, ⟨2022, 120, "CNY"⟩] =
      [⟨2022, ((120 : ℚ) - 100) / 100, "ratio"⟩]
  ∧ yoySpec [⟨2020, 100, "CNY"⟩, ⟨2022, 120, "CNY"⟩] = [] :=
  ⟨rfl, by decide⟩

/-- C3: witness — the amended theorem applied to the spec's concrete
example series. -/
theorem c3_witness :
    (⟨2022, ((120 : ℚ) - 100) / 100, "ratio"⟩ : FactPoint) ∈
      yoy [⟨2021, 100, "CNY"⟩, ⟨2022, 120, "CNY"⟩, ⟨2023, 90, "CNY"⟩] := by
  refine (c3_theorem.1 [⟨2021, 100, "CNY"⟩, ⟨2022, 120, "CNY"⟩, ⟨2023, 90, "CNY"⟩] ?_ _).mpr
    ⟨⟨2021, 100, "CNY"⟩, by decide, ⟨2022, 120, "CNY"⟩, by decide, by decide, by decide, rfl⟩
  exact List.Chain.cons (by decide) (List.Chain.cons (by decide) List.Chain.nil)

/-- CAGR output point; the value is real because the source computes a
fractional power via `Math.pow`. -/
structure CagrPoint where
  fy : Int
  value : ℝ
  unit : String

/-- `cagr(series, years)` from `server/src/services/finance.js` lines 13-22:
requires `≥ years+1` points, takes the last `years+1` points
(`series.slice(-(years+1))`), rejects `start.value ≤ 0` and year span `≤ 0`,
and returns `(end/start)^(1/(yearEnd-yearStart)) - 1` tagged at the end
year. -/
noncomputable def cagr (series : List FactPoint) (years : Nat) : Option CagrPoint :=
  if series.length < years + 1 then none
  else
    match (series.drop (series.length - (years + 1))).head?,
          (series.drop (series.length - (years + 1))).getLast? with
    | some st, some en =>
        if st.value ≤ 0 then none
        else if en.fy - st.fy ≤ 0 then none
        else some ⟨en.fy,
          ((en.value : ℝ) / (st.value : ℝ)) ^ ((1 : ℝ) / ((en.fy - st.fy : Int) : ℝ)) - 1,
          "ratio"⟩
    | _, _ => none

/-- C4: `cagr(series, 3)` is produced only with at least 4 points, uses the
last 4 points of the series, computes `(end/start)^(1/(yearEnd-yearStart))-1`
tagged at the end year, is omitted when `start ≤ 0` or the year span is
`≤ 0`, and the spec's concrete example yields exactly `1/10` at 2023. -/
theorem c4_theorem :
    (∀ s : List FactPoint,
      (s.length < 3 + 1 → cagr s 3 = none)
    ∧ (∀ st en, ¬ s.length < 3 + 1 →
        (s.drop (s.length - (3 + 1))).head? = some st →
        (s.drop (s.length - (3 + 1))).getLast? = some en →
        ((st.value ≤ 0 ∨ en.fy - st.fy ≤ 0) → cagr s 3 = none)
      ∧ (0 < st.value → 0 < en.fy - st.fy →
          cagr s 3 = some ⟨en.fy,
            ((en.value : ℝ) / (st.value : ℝ)) ^ ((1 : ℝ) / ((en.fy - st.fy : Int) : ℝ)) - 1,
            "ratio"⟩)))
  ∧ cagr [⟨2020, 100, "USD"⟩, ⟨2021, 110, "USD"⟩, ⟨2022, 121, "USD"⟩, ⟨2023, 1331/10, "USD"⟩] 3 =
      some ⟨2023, 1/10, "ratio"⟩ := by
  constructor
  · intro s
    constructor
    · intro h
      unfold cagr
      rw [if_pos h]
    · intro st en hlen hst hen
      constructor
      · intro hbad
        unfold cagr
        rw [if_neg hlen]
        simp only [hst, hen]
        rcases hbad with hb | hb
        · rw [if_pos hb]
        · by_cases h1 : st.value ≤ 0
          · rw [if_pos h1]
          · rw [if_neg h1, if_pos hb]
      · intro hpos hspan
        unfold cagr
        rw [if_neg hlen]
        simp only [hst, hen]
        rw [if_neg (not_le.mpr hpos), if_neg (by omega)]
  · show (some (⟨2023,
        ((((1331/10 : ℚ)) : ℝ) / (((100 : ℚ)) : ℝ)) ^
          ((1 : ℝ) / (((2023 - 2020 : Int)) : ℝ)) - 1, "ratio"⟩ : CagrPoint) : Option CagrPoint) =
      some ⟨2023, 1/10, "ratio"⟩
    refine congrArg some ?_
    have hval : ((((1331/10 : ℚ)) : ℝ) / (((100 : ℚ)) : ℝ)) ^
        ((1 : ℝ) / (((2023 - 2020 : Int)) : ℝ)) - 1 = 1/10 := by
      have h0 : ((((1331/10 : ℚ)) : ℝ) / (((100 : ℚ)) : ℝ)) = ((11:ℝ)/10) ^ (3:ℕ) := by
        push_cast
        norm_num
      have h1 : ((((2023 - 2020 : Int)) : ℝ)) = 3 := by norm_num
      rw [h0, h1, ← Real.rpow_natCast ((11:ℝ)/10) 3,
        ← Real.rpow_mul (by norm_num : (0:ℝ) ≤ 11/10)]
      rw [show ((3:ℕ):ℝ) * ((1:ℝ)/3) = 1 by norm_num, Real.rpow_one]
      norm_num
    rw [hval]

/-- C4: witness — the "too few points" branch of the theorem applied at a
concrete 2-point series, and the claim's concrete 4-point example read off
the theorem. -/
theorem c4_witness :
    cagr [⟨2022, 121, "USD"⟩, ⟨2023, 1331/10, "USD"⟩] 3 = none :=
  (c4_theorem.1 [⟨2022, 121, "USD"⟩, ⟨2023, 1331/10, "USD"⟩]).1 (by decide)

/-- Lookup modelling `new Map(b.map(x=>[x.fy,x.value])).get(y)` from
`server/src/services/finance.js` line 25: later entries overwrite earlier
ones, so the *last* point with fiscal year `y` wins. -/
def mapGet : List FactPoint → Int → Option ℚ
  | [], _ => none
  | p :: rest, y =>
      match mapGet rest y with
      | some v => some v
      | none => if p.fy = y then some p.value else none

theorem mapGet_eq_none (b : List FactPoint) (y : Int) :
    mapGet b y = none ↔ ∀ d ∈ b, d.fy ≠ y := by
  induction b with
  | nil => simp [mapGet]
  | cons p rest ih =>
      have hsplit : mapGet (p :: rest) y =
          (match mapGet rest y with
           | some v => some v
           | none => if p.fy = y then some p.value else none) := rfl
      constructor
      · intro h d hd
        rw [List.mem_cons] at hd
        rw [hsplit] at h
        cases hrest : mapGet rest y with
        | some v => rw [hrest] at h; cases h
        | none =>
            rw [hrest] at h
            rcases hd with hd | hd
            · subst hd
              intro hy
              rw [if_pos hy] at h; cases h
            · exact (ih.1 hrest) d hd
      · intro hall
        have hrest : mapGet rest y = none :=
          ih.2 (fun d hd => hall d (List.mem_cons_of_mem _ hd))
        rw [hsplit, hrest, if_neg (hall p (List.mem_cons_self _ _))]

theorem mapGet_eq_some (b : List FactPoint) (y : Int)
    (hnd : (b.map (fun p => p.fy)).Nodup) :
    ∀ v, mapGet b y = some v ↔ ∃ d ∈ b, d.fy = y ∧ d.value = v := by
  induction b with
  | nil => simp [mapGet]
  | cons p rest ih =>
      rw [List.map_cons, List.nodup_cons] at hnd
      obtain ⟨hp, hnd'⟩ := hnd
      intro v
      have hsplit : mapGet (p :: rest) y =
          (match mapGet rest y with
           | some w => some w
           | none => if p.fy = y then some p.value else none) := rfl
      rw [hsplit]
      cases hrest : mapGet rest y with
      | some w =>
          show some w = some v ↔ _
          obtain ⟨d, hd, hdfy, hdval⟩ := (ih hnd' w).1 hrest
          constructor
          · intro h
            have hw : w = v := by injection h
            exact ⟨d, List.mem_cons_of_mem _ hd, hdfy, hw ▸ hdval⟩
          · rintro ⟨d', hd', hdfy', hdval'⟩
            rw [List.mem_cons] at hd'
            rcases hd' with hd' | hd'
            · exfalso
              subst hd'
              refine hp ?_
              have hmem : d.fy ∈ List.map (fun p => p.fy) rest :=
                List.mem_map_of_mem _ hd
              rwa [hdfy, ← hdfy'] at hmem
            · have heq : d' = d :=
                List.inj_on_of_nodup_map hnd' hd' hd (by rw [hdfy', hdfy])
              show some w = some v
              rw [← hdval', heq, hdval]
      | none =>
          have hnone := (mapGet_eq_none rest y).1 hrest
          by_cases hy : p.fy = y
          · show (if p.fy = y then some p.value else none) = some v ↔ _
            rw [if_pos hy]
            constructor
            · intro h
              have hv : p.value = v := by injection h
              exact ⟨p, List.mem_cons_self _ _, hy, hv⟩
            · rintro ⟨d', hd', hdfy', hdval'⟩
              rw [List.mem_cons] at hd'
              rcases hd' with hd' | hd'
              · rw [hd'] at hdval'
                rw [hdval']
              · exact absurd hdfy' (hnone d' hd')
          · show (if p.fy = y then some p.value else none) = some v ↔ _
            rw [if_neg hy]
            constructor
            · intro h; cases h
            · rintro ⟨d', hd', hdfy', hdval'⟩
              rw [List.mem_cons] at hd'
              rcases hd' with hd' | hd'
              · exact absurd (hd' ▸ hdfy') hy
              · exact absurd hdfy' (hnone d' hd')

/-- `ratio(a, b)` from `server/src/services/finance.js` lines 24-31: build a
year-to-value map from `b`, then for each numerator point keep
`numerator/denominator` at its year, dropping years whose denominator is
missing (`d == null`) or zero (`d === 0`). -/
def ratio (a b : List FactPoint) : List FactPoint :=
  a.filterMap (fun x =>
    match mapGet b x.fy with
    | none => none
    | some d => if d = 0 then none else some ⟨x.fy, x.value / d, "ratio"⟩)

/-- C5: for denominators with pairwise-distinct fiscal years, the ratio
series contains a point with value `numerator/denominator` for exactly those
fiscal years present in the numerator whose denominator value exists and is
nonzero; missing-or-zero denominator years are dropped, never zero-filled. -/
theorem c5_theorem : ∀ (a b : List FactPoint), (b.map (fun p => p.fy)).Nodup → ∀ z,
    (z ∈ ratio a b ↔ ∃ x, x ∈ a ∧ ∃ d, d ∈ b ∧ d.fy = x.fy ∧ d.value ≠ 0 ∧
      z = ⟨x.fy, x.value / d.value, "ratio"⟩) := by
  intro a b hnd z
  unfold ratio
  rw [List.mem_filterMap]
  constructor
  · rintro ⟨x, hx, hfx⟩
    cases hm : mapGet b x.fy with
    | none => rw [hm] at hfx; cases hfx
    | some d =>
        rw [hm] at hfx
        have hfx' : (if d = 0 then none
            else some (⟨x.fy, x.value / d, "ratio"⟩ : FactPoint)) = some z := hfx
        by_cases hd : d = 0
        · rw [if_pos hd] at hfx'; cases hfx'
        · rw [if_neg hd] at hfx'
          obtain ⟨dd, hdd, hfy, hval⟩ := (mapGet_eq_some b x.fy hnd d).1 hm
          have hz : (⟨x.fy, x.value / d, "ratio"⟩ : FactPoint) = z := by injection hfx'
          refine ⟨x, hx, dd, hdd, hfy, ?_, ?_⟩
          · rw [hval]; exact hd
          · rw [← hz, hval]
  · rintro ⟨x, hx, d, hd, hfy, hv, hz⟩
    refine ⟨x, hx, ?_⟩
    have hm : mapGet b x.fy = some d.value :=
      (mapGet_eq_some b x.fy hnd d.value).2 ⟨d, hd, hfy, rfl⟩
    rw [hm]
    show (if d.value = 0 then none
        else some (⟨x.fy, x.value / d.value, "ratio"⟩ : FactPoint)) = some z
    rw [if_neg hv, hz]

/-- C5: witness — the theorem applied at a concrete numerator/denominator
pair: year 2021 (nonzero denominator) is kept; the denominator list also has
a zero year (2023) and a missing year (2022), which the theorem shows are
dropped. -/
theorem c5_witness :
    (⟨2021, (50 : ℚ) / (100 : ℚ), "ratio"⟩ : FactPoint) ∈
      ratio [⟨2021, 50, "CNY"⟩, ⟨2022, 60, "CNY"⟩, ⟨2023, 70, "CNY"⟩]
            [⟨2021, 100, "CNY"⟩, ⟨2023, 0, "CNY"⟩] :=
  (c5_theorem [⟨2021, 50, "CNY"⟩, ⟨2022, 60, "CNY"⟩, ⟨2023, 70, "CNY"⟩]
      [⟨2021, 100, "CNY"⟩, ⟨2023, 0, "CNY"⟩] (by decide) _).mpr
    ⟨⟨2021, 50, "CNY"⟩, by decide, ⟨2021, 100, "CNY"⟩, by decide, by decide, by decide, rfl⟩

/-! ### Association-list model of JavaScript object / Go map updates -/

/-- `alookup k m` models JavaScript property access `m[k]` on an object whose
keys never repeat, and Go map lookup. -/
def alookup {β : Type} (k : String) : List (String × β) → Option β
  | [] => none
  | kv :: rest => if kv.1 = k then some kv.2 else alookup k rest

/-- `setKey m k v` models the JavaScript assignment `m[k] = v` (and Go map
assignment): replace the value if the key is present, else append the new
binding. -/
def setKey {β : Type} (m : List (String × β)) (k : String) (v : β) : List (String × β) :=
  if (alookup k m).isSome then m.map (fun kv => if kv.1 = k then (k, v) else kv)
  else m ++ [(k, v)]

theorem alookup_append_single_ne {β : Type} (m : List (String × β)) (k k' : String) (v : β)
    (h : k' ≠ k) : alookup k' (m ++ [(k, v)]) = alookup k' m := by
  induction m with
  | nil => simp [alookup]; exact fun hk => h hk.symm
  | cons kv rest ih =>
      show (if kv.1 = k' then some kv.2 else alookup k' (rest ++ [(k, v)])) =
        (if kv.1 = k' then some kv.2 else alookup k' rest)
      rw [ih]

theorem alookup_replace_ne {β : Type} (m : List (String × β)) (k k' : String) (v : β)
    (h : k' ≠ k) :
    alookup k' (m.map (fun kv => if kv.1 = k then (k, v) else kv)) = alookup k' m := by
  induction m with
  | nil => rfl
  | cons kv rest ih =>
      by_cases hk : kv.1 = k
      · show alookup k' ((if kv.1 = k then (k, v) else kv) :: _) = _
        rw [if_pos hk]
        show (if k = k' then some v else _) = _
        rw [if_neg (fun hk' => h hk'.symm), ih]
        show _ = (if kv.1 = k' then some kv.2 else alookup k' rest)
        rw [if_neg (by rw [hk]; exact fun hk' => h hk'.symm)]
      · show alookup k' ((if kv.1 = k then (k, v) else kv) :: _) = _
        rw [if_neg hk]
        show (if kv.1 = k' then some kv.2 else _) = (if kv.1 = k' then some kv.2 else _)
        by_cases hk' : kv.1 = k'
        · rw [if_pos hk', if_pos hk']
        · rw [if_neg hk', if_neg hk', ih]

theorem alookup_setKey_ne {β : Type} (m : List (String × β)) (k k' : String) (v : β)
    (h : k' ≠ k) : alookup k' (setKey m k v) = alookup k' m := by
  unfold setKey
  by_cases hs : (alookup k m).isSome
  · rw [if_pos hs, alookup_replace_ne m k k' v h]
  · rw [if_neg hs, alookup_append_single_ne m k k' v h]

theorem alookup_append_single_self {β : Type} (m : List (String × β)) (k : String) (v : β)
    (h : alookup k m = none) : alookup k (m ++ [(k, v)]) = some v := by
  induction m with
  | nil => simp [alookup]
  | cons kv rest ih =>
      have hsplit : alookup k (kv :: rest) =
          (if kv.1 = k then some kv.2 else alookup k rest) := rfl
      rw [hsplit] at h
      by_cases hk : kv.1 = k
      · rw [if_pos hk] at h; cases h
      · rw [if_neg hk] at h
        show (if kv.1 = k then some kv.2 else alookup k (rest ++ [(k, v)])) = some v
        rw [if_neg hk, ih h]

theorem alookup_replace_self {β : Type} (m : List (String × β)) (k : String) (v : β)
    (h : (alookup k m).isSome) :
    alookup k (m.map (fun kv => if kv.1 = k then (k, v) else kv)) = some v := by
  induction m with
  | nil => cases h
  | cons kv rest ih =>
      by_cases hk : kv.1 = k
      · show alookup k ((if kv.1 = k then (k, v) else kv) :: _) = some v
        rw [if_pos hk]
        show (if k = k then some v else _) = some v
        rw [if_pos rfl]
      · show alookup k ((if kv.1 = k then (k, v) else kv) :: _) = some v
        rw [if_neg hk]
        show (if kv.1 = k then some kv.2 else _) = some v
        rw [if_neg hk]
        have h' : (alookup k rest).isSome := by
          have hsplit : alookup k (kv :: rest) =
              (if kv.1 = k then some kv.2 else alookup k rest) := rfl
          rw [hsplit, if_neg hk] at h
          exact h
        exact ih h'

theorem alookup_setKey_self {β : Type} (m : List (String × β)) (k : String) (v : β) :
    alookup k (setKey m k v) = some v := by
  unfold setKey
  by_cases hs : (alookup k m).isSome
  · rw [if_pos hs, alookup_replace_self m k v hs]
  · rw [if_neg hs]
    exact alookup_append_single_self m k v (by revert hs; cases alookup k m <;> simp)

/-! ### Session memory store, `server/src/db/memory.js` -/

/-- One row of the `memories` table. -/
structure MemRow where
  sessionId : String
  key : String
  value : String
  updatedAt : String
deriving DecidableEq, Repr

/-- `upsertMemory(db, sessionId, key, value)` from `server/src/db/memory.js`
lines 15-24: `DELETE FROM memories WHERE session_id=? AND key=?` followed by
`INSERT INTO memories(session_id, key, value, updated_at) VALUES(?,?,?,?)`. -/
def upsertMemory (db : List MemRow) (s k v t : String) : List MemRow :=
  db.filter (fun r => ¬(r.sessionId = s ∧ r.key = k)) ++ [⟨s, k, v, t⟩]

/-- `getMemories(db, sessionId)` from `server/src/db/memory.js` lines 26-36:
`SELECT key, value FROM memories WHERE session_id=?`, building a JS object
`out[r.key] = r.value` row by row (a later row overwrites an earlier one). -/
def getMemories (db : List MemRow) (s : String) : List (String × String) :=
  (db.filter (fun r => r.sessionId = s)).foldl (fun acc r => setKey acc r.key r.value) []

/-- Number of stored rows for one `(session, key)` pair. -/
def memRowCount (db : List MemRow) (s k : String) : Nat :=
  (db.filter (fun r => r.sessionId = s ∧ r.key = k)).length

theorem upsert_row_filter_nil (db : List MemRow) (s k : String) :
    ((db.filter (fun r => ¬(r.sessionId = s ∧ r.key = k))).filter
        (fun r => r.sessionId = s ∧ r.key = k)) = [] := by
  rw [List.filter_eq_nil_iff]
  intro r hr
  have h := (List.mem_filter.1 hr).2
  simp only [decide_not, Bool.not_eq_true', decide_eq_false_iff_not] at h
  simp [h]

/-- C10: the memory store holds at most one row per `(session, key)`; after an
upsert the upserted pair has exactly one row whose value `getMemories`
reports; and re-upserting the same `(key, value)` leaves the observable
memory state (the `getMemories` view of every session) unchanged. -/
theorem c10_theorem :
    (∀ db s k v t, (∀ s' k', memRowCount db s' k' ≤ 1) →
        ∀ s' k', memRowCount (upsertMemory db s k v t) s' k' ≤ 1)
  ∧ (∀ db s k v t, memRowCount (upsertMemory db s k v t) s k = 1)
  ∧ (∀ db s k v t, alookup k (getMemories (upsertMemory db s k v t) s) = some v)
  ∧ (∀ db s k v t₁ t₂ s',
      getMemories (upsertMemory (upsertMemory db s k v t₁) s k v t₂) s' =
        getMemories (upsertMemory db s k v t₁) s') := by
  have hcount : ∀ db s k v t, memRowCount (upsertMemory db s k v t) s k = 1 := by
    intro db s k v t
    unfold memRowCount upsertMemory
    rw [List.filter_append, List.length_append, upsert_row_filter_nil]
    simp
  refine ⟨?_, hcount, ?_, ?_⟩
  · -- at most one row per (session, key) is preserved
    intro db s k v t hInv s' k'
    by_cases hc : s' = s ∧ k' = k
    · obtain ⟨hs, hk⟩ := hc
      subst hs; subst hk
      rw [hcount db s' k' v t]
    · unfold memRowCount upsertMemory
      rw [List.filter_append, List.length_append]
      have hrow : List.filter (fun r => decide (r.sessionId = s' ∧ r.key = k'))
          [(⟨s, k, v, t⟩ : MemRow)] = [] := by
        simp only [List.filter_cons, List.filter_nil]
        rw [if_neg]
        simp only [decide_eq_true_eq]
        exact fun hx => hc ⟨hx.1.symm, hx.2.symm⟩
      rw [hrow]
      simp only [List.length_nil, Nat.add_zero]
      calc (List.filter (fun r => decide (r.sessionId = s' ∧ r.key = k'))
              (db.filter (fun r => ¬(r.sessionId = s ∧ r.key = k)))).length
          ≤ (db.filter (fun r => decide (r.sessionId = s' ∧ r.key = k'))).length := by
            rw [List.filter_comm]
            exact (List.filter_sublist _).length_le
        _ ≤ 1 := hInv s' k'
  · -- getMemories reports the upserted value
    intro db s k v t
    unfold getMemories upsertMemory
    rw [List.filter_append, List.foldl_append]
    have hrow : List.filter (fun r => decide (r.sessionId = s))
        [(⟨s, k, v, t⟩ : MemRow)] = [(⟨s, k, v, t⟩ : MemRow)] := by
      simp
    rw [hrow]
    exact alookup_setKey_self _ k v
  · -- re-upserting the same (key, value) is observationally idempotent
    intro db s k v t₁ t₂ s'
    have hF : (upsertMemory (upsertMemory db s k v t₁) s k v t₂) =
        db.filter (fun r => ¬(r.sessionId = s ∧ r.key = k)) ++ [⟨s, k, v, t₂⟩] := by
      unfold upsertMemory
      rw [List.filter_append]
      have hrow : List.filter (fun r => ¬(r.sessionId = s ∧ r.key = k))
          [(⟨s, k, v, t₁⟩ : MemRow)] = [] := by
        simp
      rw [hrow, List.append_nil]
      congr 1
      rw [List.filter_eq_self]
      intro r hr
      exact (List.mem_filter.1 hr).2
    rw [hF]
    unfold upsertMemory getMemories
    rw [List.filter_append, List.filter_append, List.foldl_append, List.foldl_append]
    by_cases hs : s = s'
    · subst hs
      have hrow : ∀ tt, List.filter (fun r => decide (r.sessionId = s))
          [(⟨s, k, v, tt⟩ : MemRow)] = [(⟨s, k, v, tt⟩ : MemRow)] := by
        intro tt; simp
      rw [hrow t₁, hrow t₂]
      rfl
    · have hrow : ∀ tt, List.filter (fun r => decide (r.sessionId = s'))
          [(⟨s, k, v, tt⟩ : MemRow)] = [] := by
        intro tt; simp [hs]
      rw [hrow t₁, hrow t₂]

/-- C10: witness — the theorem applied at a concrete store: starting from the
empty store, one upsert yields exactly one row whose value is read back. -/
theorem c10_witness :
    memRowCount (upsertMemory [] "sess1" "user_name" "quentin" "t0") "sess1" "user_name" ≤ 1 :=
  c10_theorem.1 [] "sess1" "user_name" "quentin" "t0"
    (fun s' k' => by simp [memRowCount]) "sess1" "user_name"

/-! ### Character/string helpers (kernel-computable equivalents of the JS
    string methods used by the source) -/

/-- JS `\\s` whitespace test (the ASCII cases plus the ideographic space). -/
def isWsChar (c : Char) : Bool :=
  c = ' ' ∨ c = '\t' ∨ c = '\n' ∨ c = '\r' ∨ c = '\x0b' ∨ c = '\x0c' ∨ c = '\u3000'

/-- JS `String.prototype.toLowerCase` (ASCII case folding). -/
def strLower (s : String) : String := (s.data.map Char.toLower).asString

/-- JS `String.prototype.toUpperCase` (ASCII case folding). -/
def strUpper (s : String) : String := (s.data.map Char.toUpper).asString

/-- JS `String.prototype.trim`. -/
def strTrim (s : String) : String :=
  ((s.data.dropWhile isWsChar).reverse.dropWhile isWsChar).reverse.asString

/-! ### Sorting by fiscal year -/

/-- Comparison by fiscal year, modelling the JS comparator
`(a, b) => a.fy - b.fy` (stable sort) and Go's `sort.Slice` by `FY`. -/
def fyLe (p q : FactPoint) : Prop := p.fy ≤ q.fy

instance : DecidableRel fyLe := fun p q => inferInstanceAs (Decidable (p.fy ≤ q.fy))

instance : IsTotal FactPoint fyLe := ⟨fun p q => Int.le_total p.fy q.fy⟩

instance : IsTrans FactPoint fyLe := ⟨fun _ _ _ h1 h2 => le_trans h1 h2⟩

/-! ### Local CN financial-data decoder, `server/src/services/financeCN.js`
    (the file re-exported through `annualReport.js` in the packed sources) -/

/-- One row of `data/cn_finance_data.json`'s `data` array: a year, an
optional unit, and the raw named numeric fields (`revenue`, `rd`, ...). -/
structure CnRow where
  year : Int
  unit : Option String
  fields : List (String × ℚ)
deriving DecidableEq, Repr

/-- One company's entry in the local JSON dataset. -/
structure CnCompanyData where
  name : String
  data : List CnRow
deriving DecidableEq, Repr

/-- The `metricMap` of `getFromLocal`. -/
def cnMetricMap : List (String × String) :=
  [("Revenue", "revenue"), ("RAndD", "rd"), ("GrossProfit", "gross_profit"),
   ("OperatingIncome", "operating_income"), ("NetIncome", "net_income"),
   ("TotalAssets", "total_assets"), ("TotalLiabilities", "total_liabilities")]

/-- Decode one metric of `getFromLocal`: look the field up per row
(`metricMap[metric] || metric.toLowerCase()`), drop rows where the field is
missing, default the unit to `CNY`, and sort ascending by fiscal year.  Note:
no deduplication of fiscal years is performed. -/
def cnMetricPoints (filtered : List CnRow) (metric : String) : List FactPoint :=
  List.insertionSort fyLe
    (filtered.filterMap (fun d =>
      (alookup ((alookup metric cnMetricMap).getD (strLower metric)) d.fields).map
        (fun v => ⟨d.year, v, d.unit.getD "CNY"⟩)))

/-- The raw-series assembly loop of `getFromLocal`: filter the rows to the
requested years (when any), then store each metric's nonempty point list. -/
def cnRawSeries (cd : CnCompanyData) (metrics : List String) (years : List Int) :
    List (String × List FactPoint) :=
  metrics.foldl (fun s metric =>
    let points := cnMetricPoints
      (if years ≠ [] then cd.data.filter (fun d => d.year ∈ years) else cd.data) metric
    if points ≠ [] then setKey s metric points else s) []

/-- The per-year ratio derivation of `getFromLocal` (GrossMargin and
RAndDRatio): for each numerator point, `find` the denominator point with the
same fiscal year; drop the year when it is missing or zero. -/
def cnDeriveRatio (a b : List FactPoint) : List FactPoint :=
  a.filterMap (fun x =>
    match b.find? (fun r => r.fy = x.fy) with
    | none => none
    | some rev =>
        if rev.value = 0 then none
        else some ⟨x.fy, x.value / rev.value, "ratio"⟩)

/-- `cagr` with the floating-point `Math.pow` abstracted as `powFn`; used
where a CAGR point is stored into a rational-valued series (`finance.js`
RevenueCAGR3Y and the inline CAGR block of `getFromLocal`, whose guards are
identical). -/
def cagrQ (powFn : ℚ → ℚ → ℚ) (series : List FactPoint) (years : Nat) : Option FactPoint :=
  if series.length < years + 1 then none
  else
    match (series.drop (series.length - (years + 1))).head?,
          (series.drop (series.length - (years + 1))).getLast? with
    | some st, some en =>
        if st.value ≤ 0 then none
        else if en.fy - st.fy ≤ 0 then none
        else some ⟨en.fy, powFn (en.value / st.value) (1 / ((en.fy - st.fy : Int) : ℚ)) - 1,
          "ratio"⟩
    | _, _ => none

/-- Derived-series section of `getFromLocal`
(`server/src/services/annualReport.js` packed copy, lines 218-277):
GrossMargin and RAndDRatio via per-year `find`, RevenueYoY via the inline
YoY loop (stored only when nonempty), RevenueCAGR3Y via the inline
tail-window CAGR (stored only when defined). -/
def cnAugment (powFn : ℚ → ℚ → ℚ) (s0 : List (String × List FactPoint)) :
    List (String × List FactPoint) :=
  let s1 :=
    if (alookup "Revenue" s0).getD [] ≠ [] ∧ (alookup "GrossProfit" s0).getD [] ≠ [] then
      setKey s0 "GrossMargin"
        (cnDeriveRatio ((alookup "GrossProfit" s0).getD []) ((alookup "Revenue" s0).getD []))
    else s0
  let s2 :=
    if (alookup "Revenue" s1).getD [] ≠ [] ∧ (alookup "RAndD" s1).getD [] ≠ [] then
      setKey s1 "RAndDRatio"
        (cnDeriveRatio ((alookup "RAndD" s1).getD []) ((alookup "Revenue" s1).getD []))
    else s1
  if (alookup "Revenue" s2).getD [] ≠ [] then
    ((cagrQ powFn ((alookup "Revenue" s2).getD []) 3).elim
      (if yoy ((alookup "Revenue" s2).getD []) ≠ [] then
        setKey s2 "RevenueYoY" (yoy ((alookup "Revenue" s2).getD []))
      else s2)
      (fun c => setKey
        (if yoy ((alookup "Revenue" s2).getD []) ≠ [] then
          setKey s2 "RevenueYoY" (yoy ((alookup "Revenue" s2).getD []))
        else s2)
        "RevenueCAGR3Y" [c]))
  else s2

/-- The derived-metrics augmentation of `getFinancialFacts`
(`server/src/services/finance.js` lines 40-56): RevenueYoY and (when
defined) RevenueCAGR3Y, then RAndDRatio, OperatingMargin and NetMargin. -/
def augmentFinancialFacts (powFn : ℚ → ℚ → ℚ) (s0 : List (String × List FactPoint)) :
    List (String × List FactPoint) :=
  let s1 :=
    if (alookup "Revenue" s0).getD [] ≠ [] then
      ((cagrQ powFn ((alookup "Revenue" s0).getD []) 3).elim
        (setKey s0 "RevenueYoY" (yoy ((alookup "Revenue" s0).getD [])))
        (fun c3 => setKey (setKey s0 "RevenueYoY" (yoy ((alookup "Revenue" s0).getD [])))
          "RevenueCAGR3Y" [c3]))
    else s0
  let s2 :=
    if (alookup "RAndD" s1).getD [] ≠ [] ∧ (alookup "Revenue" s1).getD [] ≠ [] then
      setKey s1 "RAndDRatio"
        ( ratio ((alookup "RAndD" s1).getD []) ((alookup "Revenue" s1).getD []))
    else s1
  let s3 :=
    if (alookup "OperatingIncome" s2).getD [] ≠ [] ∧ (alookup "Revenue" s2).getD [] ≠ [] then
      setKey s2 "OperatingMargin"
        ( ratio ((alookup "OperatingIncome" s2).getD []) ((alookup "Revenue" s2).getD []))
    else s2
  if (alookup "NetIncome" s3).getD [] ≠ [] ∧ (alookup "Revenue" s3).getD [] ≠ [] then
    setKey s3 "NetMargin"
      ( ratio ((alookup "NetIncome" s3).getD []) ((alookup "Revenue" s3).getD []))
  else s3

/-! ### Go companyfacts decoder, `go-service/main.go` -/

/-- One row of a us-gaap units array as consumed by `handleCompanyFacts`
(`go-service/main.go` lines 369-379): `fy` is `0` when missing or invalid,
`val` is `none` when `toFloat` fails.  The source's `End` field is renamed
`endD` because `end` is a Lean keyword. -/
structure GoRawRow where
  fy : Int
  val : Option ℚ
  endD : String
  form : String
deriving DecidableEq, Repr

/-- A decoded Go fact point (the `FactPoint` struct of `go-service/main.go`,
with `End` renamed `endD`). -/
structure GoFactPoint where
  fy : Int
  value : ℚ
  unit : String
  endD : String
  form : String
deriving DecidableEq, Repr

/-- The `tmp` collection loop of `handleCompanyFacts`: skip `fy == 0`, apply
the years filter, keep only `10-K` / `20-F` rows, skip undecodable values. -/
def goDecodeRows (years : List Int) (unit : String) (arr : List GoRawRow) : List GoFactPoint :=
  arr.filterMap (fun row =>
    if row.fy = 0 then none
    else if years ≠ [] ∧ row.fy ∉ years then none
    else if row.form ≠ "10-K" ∧ row.form ≠ "20-F" then none
    else row.val.map (fun v => ⟨row.fy, v, unit, row.endD, row.form⟩))

/-- Association lookup with integer keys (Go `map[int]FactPoint` access). -/
def ilookup {β : Type} (k : Int) : List (Int × β) → Option β
  | [] => none
  | kv :: rest => if kv.1 = k then some kv.2 else ilookup k rest

/-- One step of the `uniq` map construction of `handleCompanyFacts` lines
382-385: keep one point per fiscal year, replacing the stored point when the
new row has a strictly later period end (`p.End > old.End`). -/
def goUniqStep (m : List (Int × GoFactPoint)) (p : GoFactPoint) : List (Int × GoFactPoint) :=
  match ilookup p.fy m with
  | none => m ++ [(p.fy, p)]
  | some old =>
      if old.endD < p.endD then m.map (fun kv => if kv.1 = p.fy then (p.fy, p) else kv)
      else m

def goUniqByFY (tmp : List GoFactPoint) : List (Int × GoFactPoint) :=
  tmp.foldl goUniqStep []

/-- Comparison by fiscal year for Go points (`sort.Slice(out, ...FY <...)`). -/
def goFyLe (p q : GoFactPoint) : Prop := p.fy ≤ q.fy

instance : DecidableRel goFyLe := fun p q => inferInstanceAs (Decidable (p.fy ≤ q.fy))

instance : IsTotal GoFactPoint goFyLe := ⟨fun p q => Int.le_total p.fy q.fy⟩

instance : IsTrans GoFactPoint goFyLe := ⟨fun _ _ _ h1 h2 => le_trans h1 h2⟩

/-- `series[m]` for one metric of `handleCompanyFacts`: decode, dedupe by
fiscal year, and sort ascending by fiscal year.  (The Go map iteration order
is immaterial: after deduplication fiscal years are unique, so the sort by
fiscal year determines the sequence.) -/
def goMetricSeries (years : List Int) (unit : String) (arr : List GoRawRow) : List GoFactPoint :=
  List.insertionSort goFyLe ((goUniqByFY (goDecodeRows years unit arr)).map (fun kv => kv.2))

/-- The `rm` revenue map of the GrossMargin derivation (`rm[r.FY] = r.Value`,
later rows overwrite earlier ones). -/
def goMapGet : List GoFactPoint → Int → Option ℚ
  | [], _ => none
  | p :: rest, y =>
      match goMapGet rest y with
      | some v => some v
      | none => if p.fy = y then some p.value else none

/-- `rm[g.FY]` with Go's zero default for a missing key. -/
def goRmGet (rev : List GoFactPoint) (y : Int) : ℚ := (goMapGet rev y).getD 0

/-- The GrossMargin derivation of `handleCompanyFacts` lines 392-405:
`GrossProfit/Revenue` per year, skipping years whose revenue is missing
(Go map zero default) or zero. -/
def goGrossMarginStep (series : List (String × List GoFactPoint)) :
    List (String × List GoFactPoint) :=
  match alookup "GrossProfit" series, alookup "Revenue" series with
  | some gp, some rev =>
      setKey series "GrossMargin"
        (gp.filterMap (fun g =>
          if goRmGet rev g.fy = 0 then none
          else some ⟨g.fy, g.value / goRmGet rev g.fy, "ratio", g.endD, g.form⟩))
  | _, _ => series

theorem alookup_ite_setKey {β : Type} (cond : Prop) [Decidable cond]
    (m : List (String × β)) (kset k : String) (v : β) (h : k ≠ kset) :
    alookup k (if cond then setKey m kset v else m) = alookup k m := by
  split_ifs
  · exact alookup_setKey_ne m kset k v h
  · rfl

theorem alookup_optElim_setKey {β γ : Type} (o : Option γ) (m : List (String × β))
    (kset k : String) (f : γ → β) (h : k ≠ kset) :
    alookup k (o.elim m (fun c => setKey m kset (f c))) = alookup k m := by
  cases o with
  | none => rfl
  | some c => exact alookup_setKey_ne m kset k (f c) h

theorem alookup_us_revenue_block (powFn : ℚ → ℚ → ℚ)
    (m : List (String × List FactPoint)) (k : String)
    (hY : k ≠ "RevenueYoY") (hC : k ≠ "RevenueCAGR3Y") :
    alookup k
      (if (alookup "Revenue" m).getD [] ≠ [] then
        ((cagrQ powFn ((alookup "Revenue" m).getD []) 3).elim
          (setKey m "RevenueYoY" (yoy ((alookup "Revenue" m).getD [])))
          (fun c3 => setKey (setKey m "RevenueYoY" (yoy ((alookup "Revenue" m).getD [])))
            "RevenueCAGR3Y" [c3]))
      else m) = alookup k m := by
  split_ifs with h1
  · rw [alookup_optElim_setKey _ _ _ _ _ hC, alookup_setKey_ne _ _ _ _ hY]
  · rfl

theorem alookup_cn_revenue_block (powFn : ℚ → ℚ → ℚ)
    (m : List (String × List FactPoint)) (k : String)
    (hY : k ≠ "RevenueYoY") (hC : k ≠ "RevenueCAGR3Y") :
    alookup k
      (if (alookup "Revenue" m).getD [] ≠ [] then
        ((cagrQ powFn ((alookup "Revenue" m).getD []) 3).elim
          (if yoy ((alookup "Revenue" m).getD []) ≠ [] then
            setKey m "RevenueYoY" (yoy ((alookup "Revenue" m).getD []))
          else m)
          (fun c => setKey
            (if yoy ((alookup "Revenue" m).getD []) ≠ [] then
              setKey m "RevenueYoY" (yoy ((alookup "Revenue" m).getD []))
            else m)
            "RevenueCAGR3Y" [c]))
      else m) = alookup k m := by
  split_ifs with h1 h2
  · rw [alookup_optElim_setKey _ _ _ _ _ hC, alookup_setKey_ne _ _ _ _ hY]
  · rw [alookup_optElim_setKey _ _ _ _ _ hC]
  · rfl

/-- C9: (amended) the derived-metrics augmentations write only under the
derived keys — `RevenueYoY`, `RevenueCAGR3Y`, `RAndDRatio`, `OperatingMargin`,
`NetMargin` for the US path, `GrossMargin`, `RAndDRatio`, `RevenueYoY`,
`RevenueCAGR3Y` for the CN local path, `GrossMargin` for the Go provider —
so every raw metric under any *other* key is present and unchanged in the
augmented result.  A raw series decoded under one of the derived names is
overwritten (see `c9_counterexample`). -/
theorem c9_theorem :
    (∀ powFn s k, k ≠ "RevenueYoY" → k ≠ "RevenueCAGR3Y" → k ≠ "RAndDRatio" →
        k ≠ "OperatingMargin" → k ≠ "NetMargin" →
        alookup k (augmentFinancialFacts powFn s) = alookup k s)
  ∧ (∀ powFn s k, k ≠ "GrossMargin" → k ≠ "RAndDRatio" → k ≠ "RevenueYoY" →
        k ≠ "RevenueCAGR3Y" →
        alookup k (cnAugment powFn s) = alookup k s)
  ∧ (∀ s k, k ≠ "GrossMargin" →
        alookup k (goGrossMarginStep s) = alookup k s) := by
  refine ⟨?_, ?_, ?_⟩
  · intro powFn s k h1 h2 h3 h4 h5
    simp only [augmentFinancialFacts]
    rw [alookup_ite_setKey _ _ _ _ _ h5, alookup_ite_setKey _ _ _ _ _ h4,
      alookup_ite_setKey _ _ _ _ _ h3, alookup_us_revenue_block powFn s k h1 h2]
  · intro powFn s k h1 h2 h3 h4
    simp only [cnAugment]
    rw [alookup_cn_revenue_block powFn _ k h3 h4, alookup_ite_setKey _ _ _ _ _ h2,
      alookup_ite_setKey _ _ _ _ _ h1]
  · intro s k h1
    unfold goGrossMarginStep
    cases hgp : alookup "GrossProfit" s with
    | none => rfl
    | some gp =>
        cases hrev : alookup "Revenue" s with
        | none => rfl
        | some rev => exact alookup_setKey_ne _ _ _ _ h1

/-- C9: counterexample to the claim as stated.  With the pipeline's own
metric list (which includes `GrossMargin`), the CN local decode reads a raw
`grossmargin` field into the series under the key `GrossMargin`, and the
augmentation then *overwrites* that raw series with the derived
GrossProfit/Revenue ratio. -/
theorem c9_counterexample :
    alookup "GrossMargin"
      (cnRawSeries ⟨"宁德时代", [⟨2022, none, [("revenue", 100), ("gross_profit", 50), ("grossmargin", 55)]⟩]⟩
        ["Revenue", "GrossProfit", "GrossMargin"] []) = some [⟨2022, 55, "CNY"⟩]
  ∧ alookup "GrossMargin"
      (cnAugment (fun _ _ => 0)
        (cnRawSeries ⟨"宁德时代", [⟨2022, none, [("revenue", 100), ("gross_profit", 50), ("grossmargin", 55)]⟩]⟩
          ["Revenue", "GrossProfit", "GrossMargin"] [])) = some [⟨2022, (50 : ℚ) / 100, "ratio"⟩]
  ∧ (55 : ℚ) ≠ (50 : ℚ) / 100 :=
  ⟨by decide, rfl, by norm_num⟩

/-- C9: witness — the theorem applied at a concrete series: the raw
`Revenue` key is unchanged by the US augmentation. -/
theorem c9_witness :
    alookup "Revenue" (augmentFinancialFacts (fun _ _ => 0) [("Revenue", [⟨2022, 100, "USD"⟩])]) =
      alookup "Revenue" [("Revenue", [⟨2022, 100, "USD"⟩])] :=
  c9_theorem.1 (fun _ _ => 0) [("Revenue", [⟨2022, 100, "USD"⟩])] "Revenue"
    (by decide) (by decide) (by decide) (by decide) (by decide)

theorem ilookup_eq_none_iff {β : Type} (k : Int) (m : List (Int × β)) :
    ilookup k m = none ↔ ∀ kv ∈ m, kv.1 ≠ k := by
  induction m with
  | nil => simp [ilookup]
  | cons kv rest ih =>
      show (if kv.1 = k then some kv.2 else ilookup k rest) = none ↔ _
      by_cases hk : kv.1 = k
      · rw [if_pos hk]
        constructor
        · intro h; cases h
        · intro h; exact absurd hk (h kv (List.mem_cons_self _ _))
      · rw [if_neg hk, ih]
        constructor
        · intro h kv' hkv'
          rw [List.mem_cons] at hkv'
          rcases hkv' with h' | h'
          · rw [h']; exact hk
          · exact h kv' h'
        · intro h kv' hkv'
          exact h kv' (List.mem_cons_of_mem _ hkv')

theorem ilookup_isSome_of_mem {β : Type} (k : Int) (v : β) (m : List (Int × β))
    (h : (k, v) ∈ m) : (ilookup k m).isSome := by
  cases hlk : ilookup k m with
  | some w => rfl
  | none => exact absurd rfl ((ilookup_eq_none_iff k m).1 hlk (k, v) h)

theorem ilookup_of_mem_nodup {β : Type} (k : Int) (v : β) (m : List (Int × β))
    (hnd : (m.map (fun kv => kv.1)).Nodup) (h : (k, v) ∈ m) : ilookup k m = some v := by
  induction m with
  | nil => cases h
  | cons kv rest ih =>
      rw [List.map_cons, List.nodup_cons] at hnd
      obtain ⟨hhd, hnd'⟩ := hnd
      rw [List.mem_cons] at h
      show (if kv.1 = k then some kv.2 else ilookup k rest) = some v
      rcases h with h | h
      · rw [if_pos (by rw [← h])]
        rw [← h]
      · have hk : kv.1 ≠ k := by
          intro he
          refine hhd ?_
          rw [he]
          exact List.mem_map_of_mem (fun kv => kv.1) h
        rw [if_neg hk]
        exact ih hnd' h

theorem ilookup_append {β : Type} (k : Int) (m l : List (Int × β)) :
    ilookup k (m ++ l) =
      (match ilookup k m with
       | some v => some v
       | none => ilookup k l) := by
  induction m with
  | nil => simp [ilookup]
  | cons kv rest ih =>
      show (if kv.1 = k then some kv.2 else ilookup k (rest ++ l)) = _
      by_cases hk : kv.1 = k
      · rw [if_pos hk]
        show _ = (match (if kv.1 = k then some kv.2 else ilookup k rest) with
          | some v => some v | none => ilookup k l)
        rw [if_pos hk]
      · rw [if_neg hk, ih]
        show _ = (match (if kv.1 = k then some kv.2 else ilookup k rest) with
          | some v => some v | none => ilookup k l)
        rw [if_neg hk]

theorem mem_of_ilookup_eq_some {β : Type} (k : Int) (v : β) (m : List (Int × β))
    (h : ilookup k m = some v) : (k, v) ∈ m := by
  induction m with
  | nil => cases h
  | cons kv rest ih =>
      have hsplit : ilookup k (kv :: rest) =
          (if kv.1 = k then some kv.2 else ilookup k rest) := rfl
      rw [hsplit] at h
      by_cases hk : kv.1 = k
      · rw [if_pos hk] at h
        injection h with h
        have heq : kv = (k, v) := by rw [← hk, ← h]
        rw [← heq]
        exact List.mem_cons_self _ _
      · rw [if_neg hk] at h
        exact List.mem_cons_of_mem _ (ih h)

/-- Invariant of the `uniq` fold of `handleCompanyFacts`: keys are unique,
each stored point carries its key as fiscal year, comes from the processed
rows, and has the maximal period end among processed rows of its year; every
processed row's year has an entry. -/
def GoUniqInv (m : List (Int × GoFactPoint)) (seen : List GoFactPoint) : Prop :=
  (m.map (fun kv => kv.1)).Nodup ∧
  (∀ kv ∈ m, kv.2.fy = kv.1 ∧ kv.2 ∈ seen ∧
    ∀ q ∈ seen, q.fy = kv.1 → q.endD ≤ kv.2.endD) ∧
  (∀ q ∈ seen, (ilookup q.fy m).isSome)

theorem goUniqStep_inv (m : List (Int × GoFactPoint)) (seen : List GoFactPoint)
    (p : GoFactPoint) (h : GoUniqInv m seen) : GoUniqInv (goUniqStep m p) (seen ++ [p]) := by
  obtain ⟨hnd, hent, hcov⟩ := h
  unfold goUniqStep
  cases hlk : ilookup p.fy m with
  | none =>
      have hknotin : p.fy ∉ m.map (fun kv => kv.1) := by
        intro hmem
        rw [List.mem_map] at hmem
        obtain ⟨kv, hkv, hfst⟩ := hmem
        exact ((ilookup_eq_none_iff p.fy m).1 hlk kv hkv) hfst
      refine ⟨?_, ?_, ?_⟩
      · rw [List.map_append, List.nodup_append]
        refine ⟨hnd, List.nodup_singleton _, ?_⟩
        intro a ha hb
        rw [List.map_singleton, List.mem_singleton] at hb
        rw [hb] at ha
        exact hknotin ha
      · intro kv hkv
        rw [List.mem_append] at hkv
        rcases hkv with hkv | hkv
        · obtain ⟨hfy, hmem, hmax⟩ := hent kv hkv
          refine ⟨hfy, List.mem_append_left _ hmem, ?_⟩
          intro q hq hqfy
          rw [List.mem_append] at hq
          rcases hq with hq | hq
          · exact hmax q hq hqfy
          · rw [List.mem_singleton] at hq
            subst hq
            exfalso
            have hsome : (ilookup kv.1 m).isSome :=
              ilookup_isSome_of_mem kv.1 kv.2 m (by simpa using hkv)
            rw [← hqfy, hlk] at hsome
            simp at hsome
        · rw [List.mem_singleton] at hkv
          subst hkv
          refine ⟨rfl, List.mem_append_right _ (List.mem_singleton.2 rfl), ?_⟩
          intro q hq hqfy
          rw [List.mem_append] at hq
          rcases hq with hq | hq
          · exfalso
            have hsome := hcov q hq
            have hqfy' : q.fy = p.fy := hqfy
            rw [hqfy', hlk] at hsome
            simp at hsome
          · rw [List.mem_singleton] at hq
            rw [hq]
      · intro q hq
        rw [List.mem_append] at hq
        rw [ilookup_append]
        rcases hq with hq | hq
        · have hsome := hcov q hq
          cases hlk2 : ilookup q.fy m with
          | some v => rfl
          | none => rw [hlk2] at hsome; simp at hsome
        · rw [List.mem_singleton] at hq
          subst hq
          rw [hlk]
          show (ilookup q.fy [(q.fy, q)]).isSome
          show (if (q.fy, q).1 = q.fy then some (q.fy, q).2 else ilookup q.fy []).isSome
          rw [if_pos rfl]
          rfl
  | some old =>
      have hkeysame : ∀ (f : Int × GoFactPoint → Int × GoFactPoint),
          (∀ kv : Int × GoFactPoint, (f kv).1 = kv.1) →
          (m.map f).map (fun kv => kv.1) = m.map (fun kv => kv.1) := by
        intro f hf
        rw [List.map_map]
        exact List.map_congr_left (fun kv _ => hf kv)
      show GoUniqInv
        (if old.endD < p.endD then
          List.map (fun kv => if kv.1 = p.fy then (p.fy, p) else kv) m
         else m) (seen ++ [p])
      by_cases hrep : old.endD < p.endD
      · rw [if_pos hrep]
        have hproj : ∀ kv : Int × GoFactPoint,
            ((if kv.1 = p.fy then (p.fy, p) else kv) : Int × GoFactPoint).1 = kv.1 := by
          intro kv
          by_cases hk : kv.1 = p.fy
          · rw [if_pos hk, hk]
          · rw [if_neg hk]
        have hkeys : (m.map (fun kv => if kv.1 = p.fy then (p.fy, p) else kv)).map
            (fun kv => kv.1) = m.map (fun kv => kv.1) := hkeysame _ hproj
        refine ⟨by rw [hkeys]; exact hnd, ?_, ?_⟩
        · intro kv' hkv'
          rw [List.mem_map] at hkv'
          obtain ⟨kv, hkv, hfkv⟩ := hkv'
          by_cases hk : kv.1 = p.fy
          · rw [if_pos hk] at hfkv
            subst hfkv
            have hold : kv.2 = old := by
              have h1 : ilookup kv.1 m = some kv.2 :=
                ilookup_of_mem_nodup kv.1 kv.2 m hnd (by simpa using hkv)
              rw [hk, hlk] at h1
              injection h1 with h1
              exact h1.symm
            obtain ⟨hfy, hmem, hmax⟩ := hent kv hkv
            refine ⟨rfl, List.mem_append_right _ (List.mem_singleton.2 rfl), ?_⟩
            intro q hq hqfy
            rw [List.mem_append] at hq
            rcases hq with hq | hq
            · have := hmax q hq (by rw [hqfy]; exact hk.symm)
              rw [hold] at this
              exact le_trans this (le_of_lt hrep)
            · rw [List.mem_singleton] at hq
              rw [hq]
          · rw [if_neg hk] at hfkv
            subst hfkv
            obtain ⟨hfy, hmem, hmax⟩ := hent kv hkv
            refine ⟨hfy, List.mem_append_left _ hmem, ?_⟩
            intro q hq hqfy
            rw [List.mem_append] at hq
            rcases hq with hq | hq
            · exact hmax q hq hqfy
            · rw [List.mem_singleton] at hq
              subst hq
              exact absurd (hqfy ▸ rfl : q.fy = kv.1).symm (by rw [hqfy] at hk ⊢; exact fun he => hk he.symm)
        · intro q hq
          have hiff : ∀ k', (ilookup k' (m.map (fun kv => if kv.1 = p.fy then (p.fy, p) else kv))).isSome ↔
              (ilookup k' m).isSome := by
            intro k'
            constructor
            · intro hs
              cases hs2 : ilookup k' (m.map (fun kv => if kv.1 = p.fy then (p.fy, p) else kv)) with
              | none => rw [hs2] at hs; simp at hs
              | some w =>
                  by_contra hns
                  cases hs3 : ilookup k' m with
                  | some w2 => rw [hs3] at hns; simp at hns
                  | none =>
                      have hall := (ilookup_eq_none_iff k' m).1 hs3
                      have : ilookup k' (m.map (fun kv => if kv.1 = p.fy then (p.fy, p) else kv)) = none := by
                        rw [ilookup_eq_none_iff]
                        intro kv' hkv'
                        rw [List.mem_map] at hkv'
                        obtain ⟨kv, hkv, hfkv⟩ := hkv'
                        rw [← hfkv, hproj kv]
                        exact hall kv hkv
                      rw [this] at hs2
                      cases hs2
            · intro hs
              cases hs3 : ilookup k' m with
              | none => rw [hs3] at hs; simp at hs
              | some w =>
                  have hmem : (k', w) ∈ m := mem_of_ilookup_eq_some k' w m hs3
                  have hmem2 : ((if (k', w).1 = p.fy then (p.fy, p) else (k', w)) : Int × GoFactPoint) ∈
                      m.map (fun kv => if kv.1 = p.fy then (p.fy, p) else kv) :=
                    List.mem_map_of_mem _ hmem
                  by_cases hk : k' = p.fy
                  · rw [if_pos hk] at hmem2
                    have hres := ilookup_isSome_of_mem p.fy p _ hmem2
                    rw [hk]
                    exact hres
                  · rw [if_neg hk] at hmem2
                    exact ilookup_isSome_of_mem k' w _ hmem2
          rw [List.mem_append] at hq
          rcases hq with hq | hq
          · exact (hiff q.fy).2 (hcov q hq)
          · rw [List.mem_singleton] at hq
            subst hq
            refine (hiff q.fy).2 ?_
            rw [hlk]
            rfl
      · rw [if_neg hrep]
        refine ⟨hnd, ?_, ?_⟩
        · intro kv hkv
          obtain ⟨hfy, hmem, hmax⟩ := hent kv hkv
          refine ⟨hfy, List.mem_append_left _ hmem, ?_⟩
          intro q hq hqfy
          rw [List.mem_append] at hq
          rcases hq with hq | hq
          · exact hmax q hq hqfy
          · rw [List.mem_singleton] at hq
            subst hq
            have hold : kv.2 = old := by
              have h1 : ilookup kv.1 m = some kv.2 :=
                ilookup_of_mem_nodup kv.1 kv.2 m hnd (by simpa using hkv)
              rw [← hqfy] at h1
              rw [hlk] at h1
              injection h1 with h1
              exact h1.symm
            rw [hold]
            exact not_lt.1 hrep
        · intro q hq
          rw [List.mem_append] at hq
          rcases hq with hq | hq
          · exact hcov q hq
          · rw [List.mem_singleton] at hq
            subst hq
            rw [hlk]
            rfl

theorem goUniq_fold_inv :
    ∀ (tmp : List GoFactPoint) (m : List (Int × GoFactPoint)) (seen : List GoFactPoint),
    GoUniqInv m seen → GoUniqInv (tmp.foldl goUniqStep m) (seen ++ tmp) := by
  intro tmp
  induction tmp with
  | nil => intro m seen h; simpa using h
  | cons p tmp' ih =>
      intro m seen h
      rw [List.foldl_cons]
      have hstep := ih (goUniqStep m p) (seen ++ [p]) (goUniqStep_inv m seen p h)
      rwa [List.append_assoc, List.singleton_append] at hstep

theorem goUniqInv_final (tmp : List GoFactPoint) : GoUniqInv (goUniqByFY tmp) tmp := by
  have h := goUniq_fold_inv tmp [] []
    ⟨List.nodup_nil, fun kv hkv => absurd hkv (List.not_mem_nil _),
     fun q hq => absurd hq (List.not_mem_nil _)⟩
  simpa using h

theorem alookup_setKey_cases {β : Type} (m : List (String × β)) (k k' : String) (v s : β)
    (h : alookup k' (setKey m k v) = some s) : s = v ∨ alookup k' m = some s := by
  by_cases hk : k' = k
  · subst hk
    rw [alookup_setKey_self] at h
    injection h with h
    exact Or.inl h.symm
  · rw [alookup_setKey_ne _ _ _ _ hk] at h
    exact Or.inr h

/-- C6: (amended) series decoded by the Go companyfacts handler have strictly
ascending (hence pairwise-distinct) fiscal years, each kept point being a
decoded row with the maximal period end among the decoded rows of its year;
series decoded by the JS CN local path are sorted ascending by fiscal year
but are *not* deduplicated, so duplicate years in the underlying data survive
(see `c6_counterexample`). -/
theorem c6_theorem :
    (∀ years unit arr,
       List.Sorted (· < ·) ((goMetricSeries years unit arr).map (fun p => p.fy))
     ∧ (∀ p ∈ goMetricSeries years unit arr,
         p ∈ goDecodeRows years unit arr ∧
         ∀ q ∈ goDecodeRows years unit arr, q.fy = p.fy → q.endD ≤ p.endD))
  ∧ (∀ cd metrics years k s,
       alookup k (cnRawSeries cd metrics years) = some s →
       List.Sorted (· ≤ ·) (s.map (fun p => p.fy))) := by
  constructor
  · intro years unit arr
    obtain ⟨hnd, hent, hcov⟩ := goUniqInv_final (goDecodeRows years unit arr)
    have hperm : (goMetricSeries years unit arr).Perm
        ((goUniqByFY (goDecodeRows years unit arr)).map (fun kv => kv.2)) :=
      List.perm_insertionSort goFyLe _
    constructor
    · have hsorted : List.Pairwise goFyLe (goMetricSeries years unit arr) :=
        List.sorted_insertionSort goFyLe _
      have hle : List.Pairwise (· ≤ ·) ((goMetricSeries years unit arr).map (fun p => p.fy)) :=
        List.pairwise_map.2 hsorted
      have hnodup : ((goMetricSeries years unit arr).map (fun p => p.fy)).Nodup := by
        have h1 : ((goUniqByFY (goDecodeRows years unit arr)).map (fun kv => kv.2)).map
            (fun p => p.fy) = (goUniqByFY (goDecodeRows years unit arr)).map (fun kv => kv.1) := by
          rw [List.map_map]
          exact List.map_congr_left (fun kv hkv => (hent kv hkv).1)
        have h2 := (hperm.map (fun p => p.fy)).nodup_iff
        rw [h1] at h2
        exact h2.2 hnd
      exact (hle.and hnodup).imp (fun hab => lt_of_le_of_ne hab.1 hab.2)
    · intro p hp
      have hp' : p ∈ (goUniqByFY (goDecodeRows years unit arr)).map (fun kv => kv.2) :=
        hperm.mem_iff.1 hp
      rw [List.mem_map] at hp'
      obtain ⟨kv, hkv, hkvp⟩ := hp'
      obtain ⟨hfy, hmem, hmax⟩ := hent kv hkv
      subst hkvp
      exact ⟨hmem, fun q hq hqfy => hmax q hq (hqfy.trans hfy)⟩
  · intro cd metrics years k s
    suffices h : ∀ (ms : List String) (s0 : List (String × List FactPoint)),
        (∀ k' s', alookup k' s0 = some s' → List.Sorted (· ≤ ·) (s'.map (fun p => p.fy))) →
        ∀ k' s', alookup k' (ms.foldl (fun s metric =>
          let points := cnMetricPoints
            (if years ≠ [] then cd.data.filter (fun d => d.year ∈ years) else cd.data) metric
          if points ≠ [] then setKey s metric points else s) s0) = some s' →
        List.Sorted (· ≤ ·) (s'.map (fun p => p.fy)) by
      intro hlk
      exact h metrics [] (fun k' s' hh => by cases hh) k s hlk
    intro ms
    induction ms with
    | nil =>
        intro s0 hbase k' s' hlk
        exact hbase k' s' hlk
    | cons metric rest ih =>
        intro s0 hbase k' s' hlk
        rw [List.foldl_cons] at hlk
        refine ih _ ?_ k' s' hlk
        intro k2 s2 hlk2
        by_cases hpt : cnMetricPoints
            (if years ≠ [] then cd.data.filter (fun d => d.year ∈ years) else cd.data) metric ≠ []
        · have hlk3 : alookup k2 (setKey s0 metric (cnMetricPoints
              (if years ≠ [] then cd.data.filter (fun d => d.year ∈ years) else cd.data)
              metric)) = some s2 := by
            rw [if_pos hpt] at hlk2
            exact hlk2
          rcases alookup_setKey_cases _ _ _ _ _ hlk3 with h2 | h2
          · subst h2
            have hs : List.Pairwise fyLe (cnMetricPoints
                (if years ≠ [] then cd.data.filter (fun d => d.year ∈ years) else cd.data)
                metric) := by
              unfold cnMetricPoints
              exact List.sorted_insertionSort fyLe _
            exact List.pairwise_map.2 hs
          · exact hbase k2 s2 h2
        · have hlk3 : alookup k2 s0 = some s2 := by
            rw [if_neg hpt] at hlk2
            exact hlk2
          exact hbase k2 s2 hlk3

/-- C6: counterexample to the claim as stated.  The CN local decode
(`getFromLocal`) only sorts — it does not deduplicate fiscal years — so a
local data file with two rows for 2022 produces a fetched series with two
points for fiscal year 2022. -/
theorem c6_counterexample :
    alookup "Revenue"
      (cnRawSeries ⟨"示例公司",
          [⟨2022, none, [("revenue", 100)]⟩, ⟨2022, none, [("revenue", 200)]⟩]⟩
        ["Revenue"] []) = some [⟨2022, 100, "CNY"⟩, ⟨2022, 200, "CNY"⟩]
  ∧ ¬ (([⟨2022, 100, "CNY"⟩, ⟨2022, 200, "CNY"⟩] : List FactPoint).map (fun p => p.fy)).Nodup :=
  ⟨by decide, by decide⟩

/-- C6: witness — the CN half of the theorem applied to a concrete local
dataset whose rows arrive in descending year order; the decoded series is
sorted ascending. -/
theorem c6_witness :
    List.Sorted (· ≤ ·)
      (([⟨2021, 100, "CNY"⟩, ⟨2022, 120, "CNY"⟩] : List FactPoint).map (fun p => p.fy)) :=
  c6_theorem.2 ⟨"示例公司", [⟨2022, none, [("revenue", 120)]⟩, ⟨2021, none, [("revenue", 100)]⟩]⟩
    ["Revenue"] [] "Revenue" [⟨2021, 100, "CNY"⟩, ⟨2022, 120, "CNY"⟩] (by decide)

/-! ### CN fetch with fallback, `server/src/services/financeCN.js` -/

/-- The `{series, sourceUrl, companyName}` result shape. -/
structure FinResult where
  series : List (String × List FactPoint)
  sourceUrl : String
  companyName : String
deriving DecidableEq, Repr

/-- `getFromLocal(code, metrics, years)`: `null` when the local dataset file
is missing/unreadable or has no entry for the code; otherwise the decoded
raw series with derived metrics appended, the local provenance URL, and
`companyData.name || code`.  The dataset file content is the `localData`
parameter. -/
def cnGetFromLocal (powFn : ℚ → ℚ → ℚ) (localData : Option (List (String × CnCompanyData)))
    (code : String) (metrics : List String) (years : List Int) : Option FinResult :=
  match localData with
  | none => none
  | some d =>
      match alookup code d with
      | none => none
      | some cd =>
          some { series := cnAugment powFn (cnRawSeries cd metrics years),
                 sourceUrl := "local:data/cn_finance_data.json#" ++ code,
                 companyName := if cd.name ≠ "" then cd.name else code }

/-- What happens after the local dataset produced nothing: the Tushare API is
consulted only when a token is configured; `getFromTushare` returns `null`
on any failure or when no series decoded (both folded into the
`tushareResult` parameter); otherwise an empty-series result. -/
def cnAfterLocal (hasToken : Bool) (tushareResult : Option FinResult) (code : String) :
    FinResult :=
  if hasToken then
    match tushareResult with
    | some r => r
    | none => ⟨[], "", code⟩
  else ⟨[], "", code⟩

/-- `getFinancialDataCN({code, metrics, years, ...})` from
`server/src/services/financeCN.js`: empty result for a missing code;
otherwise the *local dataset first* (used whenever it yielded at least one
series), then Tushare, then an empty series object — never an exception. -/
def getFinancialDataCN (powFn : ℚ → ℚ → ℚ) (localData : Option (List (String × CnCompanyData)))
    (hasToken : Bool) (tushareResult : Option FinResult)
    (code : String) (metrics : List String) (years : List Int) : FinResult :=
  if code = "" then ⟨[], "", ""⟩
  else
    match cnGetFromLocal powFn localData code metrics years with
    | some r =>
        if r.series.length > 0 then r
        else cnAfterLocal hasToken tushareResult code
    | none => cnAfterLocal hasToken tushareResult code

/-- Modelled from the spec: the claimed provider order for an A-share
target — the remote provider first and the local static dataset keyed by the
exact canonical symbol as the *last resort* — short-circuiting on the first
provider whose series is non-empty; empty series object when every provider
yields nothing.  Used only to compare the source's order against the
claim. -/
def specCNLocalOrEmpty (powFn : ℚ → ℚ → ℚ) (localData : Option (List (String × CnCompanyData)))
    (code : String) (metrics : List String) (years : List Int) : FinResult :=
  match cnGetFromLocal powFn localData code metrics years with
  | some r => if r.series.length > 0 then r else ⟨[], "", code⟩
  | none => ⟨[], "", code⟩

/-- Modelled from the spec: see `specCNLocalOrEmpty`. -/
def specFetchCNLocalLast (powFn : ℚ → ℚ → ℚ) (localData : Option (List (String × CnCompanyData)))
    (hasToken : Bool) (tushareResult : Option FinResult)
    (code : String) (metrics : List String) (years : List Int) : FinResult :=
  if code = "" then ⟨[], "", ""⟩
  else
    match (if hasToken then tushareResult else none) with
    | some r =>
        if r.series.length > 0 then r
        else specCNLocalOrEmpty powFn localData code metrics years
    | none => specCNLocalOrEmpty powFn localData code metrics years

/-- C7: counterexample to the claim as stated.  With both the local dataset
and the remote provider holding data for `300750.SZ`, the source returns the
*local* result — the local dataset is consulted first, not as a last resort
after the remote provider as the claim requires. -/
theorem c7_counterexample :
    (getFinancialDataCN (fun _ _ => 0)
        (some [("300750.SZ", ⟨"宁德时代", [⟨2022, none, [("revenue", 100)]⟩]⟩)])
        true
        (some ⟨[("Revenue", [⟨2022, 200, "CNY"⟩])],
          "tushare_api:http://api.tushare.pro#300750.SZ", "300750.SZ"⟩)
        "300750.SZ" ["Revenue"] []).sourceUrl = "local:data/cn_finance_data.json#300750.SZ"
  ∧ (specFetchCNLocalLast (fun _ _ => 0)
        (some [("300750.SZ", ⟨"宁德时代", [⟨2022, none, [("revenue", 100)]⟩]⟩)])
        true
        (some ⟨[("Revenue", [⟨2022, 200, "CNY"⟩])],
          "tushare_api:http://api.tushare.pro#300750.SZ", "300750.SZ"⟩)
        "300750.SZ" ["Revenue"] []).sourceUrl = "tushare_api:http://api.tushare.pro#300750.SZ" :=
  ⟨by decide, by decide⟩

/-- C7: (amended) for a nonempty code the fetch layer tries the *local
static dataset first*, short-circuiting when it yields at least one series;
otherwise the Tushare remote provider (when a token is configured and the
call succeeded); and when every provider yields nothing the result is the
empty series object `{series:{}, sourceUrl:"", companyName: code}` rather
than an exception. -/
theorem c7_theorem :
    ∀ powFn localData hasToken tushareResult code metrics years, code ≠ "" →
      ((∀ r, cnGetFromLocal powFn localData code metrics years = some r →
          r.series.length > 0 →
          getFinancialDataCN powFn localData hasToken tushareResult code metrics years = r)
    ∧ ((cnGetFromLocal powFn localData code metrics years = none ∨
        (∃ r, cnGetFromLocal powFn localData code metrics years = some r ∧
          ¬ r.series.length > 0)) →
        ((hasToken = true → ∀ r', tushareResult = some r' →
            getFinancialDataCN powFn localData hasToken tushareResult code metrics years = r')
       ∧ ((hasToken = false ∨ tushareResult = none) →
            getFinancialDataCN powFn localData hasToken tushareResult code metrics years =
              ⟨[], "", code⟩)))) := by
  intro powFn localData hasToken tushareResult code metrics years hcode
  have hafter1 : hasToken = true → ∀ r', tushareResult = some r' →
      cnAfterLocal hasToken tushareResult code = r' := by
    intro htok r' htr
    unfold cnAfterLocal
    rw [htok, htr]
    rw [if_pos rfl]
  have hafter2 : (hasToken = false ∨ tushareResult = none) →
      cnAfterLocal hasToken tushareResult code = ⟨[], "", code⟩ := by
    intro hcase
    unfold cnAfterLocal
    rcases hcase with hc | hc
    · rw [hc]
      rw [if_neg (by simp)]
    · rw [hc]
      cases hasToken with
      | true => rw [if_pos rfl]
      | false => rw [if_neg (by simp)]
  constructor
  · intro r hl hlen
    unfold getFinancialDataCN
    rw [if_neg hcode, hl]
    show (if r.series.length > 0 then r else cnAfterLocal hasToken tushareResult code) = r
    rw [if_pos hlen]
  · intro hfail
    constructor
    · intro htok r' htr
      unfold getFinancialDataCN
      rw [if_neg hcode]
      rcases hfail with hf | ⟨r, hf, hlen⟩
      · rw [hf]
        exact hafter1 htok r' htr
      · rw [hf]
        show (if r.series.length > 0 then r else cnAfterLocal hasToken tushareResult code) = r'
        rw [if_neg hlen]
        exact hafter1 htok r' htr
    · intro hcase
      unfold getFinancialDataCN
      rw [if_neg hcode]
      rcases hfail with hf | ⟨r, hf, hlen⟩
      · rw [hf]
        exact hafter2 hcase
      · rw [hf]
        show (if r.series.length > 0 then r else cnAfterLocal hasToken tushareResult code) = _
        rw [if_neg hlen]
        exact hafter2 hcase

/-- C7: witness — the theorem applied at a concrete dataset: the local
result is returned as-is when it has data. -/
theorem c7_witness :
    getFinancialDataCN (fun _ _ => 0)
        (some [("300750.SZ", ⟨"宁德时代", [⟨2022, none, [("revenue", 100)]⟩]⟩)])
        false none "300750.SZ" ["Revenue"] [] =
      ⟨[("Revenue", [⟨2022, 100, "CNY"⟩])],
        "local:data/cn_finance_data.json#300750.SZ", "宁德时代"⟩ :=
  (c7_theorem (fun _ _ => 0)
      (some [("300750.SZ", ⟨"宁德时代", [⟨2022, none, [("revenue", 100)]⟩]⟩)])
      false none "300750.SZ" ["Revenue"] [] (by decide)).1
    ⟨[("Revenue", [⟨2022, 100, "CNY"⟩])],
      "local:data/cn_finance_data.json#300750.SZ", "宁德时代"⟩
    (by decide) (by decide)

/-! ### Compare-target splitting, `server/src/index.js` lines 46-70 -/

/-- Case-sensitive literal prefix: the remainder after `lit`. -/
def chopLit : List Char → List Char → Option (List Char)
  | [], cs => some cs
  | _ :: _, [] => none
  | p :: ps, c :: cs => if c = p then chopLit ps cs else none

/-- Case-insensitive (ASCII) literal prefix. -/
def chopLitCI : List Char → List Char → Option (List Char)
  | [], cs => some cs
  | _ :: _, [] => none
  | p :: ps, c :: cs => if c.toLower = p.toLower then chopLitCI ps cs else none

/-- JS `String.prototype.includes` on char lists (an empty needle matches). -/
def listHasLit (lit : List Char) : List Char → Bool
  | [] => (chopLit lit []).isSome
  | c :: cs => (chopLit lit (c :: cs)).isSome || listHasLit lit cs

/-- JS `hay.includes(sub)`. -/
def strIncludes (hay sub : String) : Bool := listHasLit sub.data hay.data

/-- Remainder after the first (case-insensitive) occurrence of `lit`. -/
def afterLitCI (lit : List Char) : List Char → Option (List Char)
  | [] => chopLitCI lit []
  | c :: cs =>
      match chopLitCI lit (c :: cs) with
      | some r => some r
      | none => afterLitCI lit cs

/-- `前\s*10` occurring anywhere in the char list. -/
def hasQianWs10 : List Char → Bool
  | [] => false
  | c :: cs =>
      (c == '前' && (chopLit ['1', '0'] (cs.dropWhile isWsChar)).isSome) || hasQianWs10 cs

/-- `/美国.*前\s*10|美股.*前\s*10/i.test(norm)` of `splitCompareTargets`. -/
def usTop10Test (cs : List Char) : Bool :=
  (match afterLitCI ['美', '国'] cs with
   | some r => hasQianWs10 r
   | none => false) ||
  (match afterLitCI ['美', '股'] cs with
   | some r => hasQianWs10 r
   | none => false)

/-- `/中国.*前\s*10|A股.*前\s*10/i.test(norm)` of `splitCompareTargets`. -/
def cnTop10Test (cs : List Char) : Bool :=
  (match afterLitCI ['中', '国'] cs with
   | some r => hasQianWs10 r
   | none => false) ||
  (match afterLitCI ['a', '股'] cs with
   | some r => hasQianWs10 r
   | none => false)

/-- One separator token of the split regex
`vs\.?|VS\.?|对比|比较|和|与|以及|&|,|、|\/|\||;|\n` (case-insensitive, in the
source's alternation order, with `vs` greedily taking an optional dot);
returns the remainder after the token. -/
def matchSepTok (cs : List Char) : Option (List Char) :=
  match chopLitCI ['v', 's'] cs with
  | some r =>
      some (match r with
            | '.' :: r2 => r2
            | _ => r)
  | none =>
  match chopLit ['对', '比'] cs with
  | some r => some r
  | none =>
  match chopLit ['比', '较'] cs with
  | some r => some r
  | none =>
  match chopLit ['和'] cs with
  | some r => some r
  | none =>
  match chopLit ['与'] cs with
  | some r => some r
  | none =>
  match chopLit ['以', '及'] cs with
  | some r => some r
  | none =>
  match chopLit ['&'] cs with
  | some r => some r
  | none =>
  match chopLit [','] cs with
  | some r => some r
  | none =>
  match chopLit ['、'] cs with
  | some r => some r
  | none =>
  match chopLit ['/'] cs with
  | some r => some r
  | none =>
  match chopLit ['|'] cs with
  | some r => some r
  | none =>
  match chopLit [';'] cs with
  | some r => some r
  | none => chopLit ['\n'] cs

/-- A full separator match `\s*(?:tok)\s*` at the current position.  (A
token never starts with whitespace, so the greedy `\s*` always consumes the
whole whitespace run in front of it.) -/
def matchSep (cs : List Char) : Option (List Char) :=
  (matchSepTok (cs.dropWhile isWsChar)).map (fun r => r.dropWhile isWsChar)

/-- Left-to-right scan splitting on the separator regex (fuel-indexed; fuel
`cs.length + 1` always suffices because every step consumes at least one
character). -/
def splitSepsAux : Nat → List Char → List Char → List (List Char)
  | 0, acc, rest => [acc.reverse ++ rest]
  | _ + 1, acc, [] => [acc.reverse]
  | fuel + 1, acc, c :: rest =>
      match matchSep (c :: rest) with
      | some rem => acc.reverse :: splitSepsAux fuel [] rem
      | none => splitSepsAux fuel (c :: acc) rest

def splitSeps (cs : List Char) : List (List Char) := splitSepsAux (cs.length + 1) [] cs

/-- Whitespace-run collapse (`\s+` → one space); `prevWs` records whether
the previous character was whitespace. -/
def collapseWsAux : Bool → List Char → List Char
  | _, [] => []
  | prevWs, c :: rest =>
      if isWsChar c then
        (if prevWs then collapseWsAux true rest else ' ' :: collapseWsAux true rest)
      else c :: collapseWsAux false rest

/-- The normalisation of `splitCompareTargets`: full-width parens to ASCII,
`\s+` collapsed to single spaces, then trimmed. -/
def normalizeQuery (s : String) : String :=
  strTrim (collapseWsAux false
    (s.data.map (fun c => if c = '（' then '(' else if c = '）' then ')' else c))).asString

/-- `p.replace(/^对比\s*/, '').trim()` of the dedup loop. -/
def stripDuibi (p : String) : String :=
  match p.data with
  | '对' :: '比' :: rest => strTrim (rest.dropWhile isWsChar).asString
  | _ => strTrim p

/-- The `uniq` accumulation loop of `splitCompareTargets`: keep a part when
its stripped form is nonempty and not already collected. -/
def dedupParts : List String → List String → List String
  | acc, [] => acc
  | acc, p :: ps =>
      if stripDuibi p ≠ "" ∧ stripDuibi p ∉ acc then dedupParts (acc ++ [stripDuibi p]) ps
      else dedupParts acc ps

/-- `splitCompareTargets(text, fallback)` from `server/src/index.js` lines
46-70. -/
def splitCompareTargets (text fallback : String) : List String :=
  if usTop10Test (normalizeQuery (if strTrim fallback ≠ "" then fallback else text)).data ∧
     cnTop10Test (normalizeQuery (if strTrim fallback ≠ "" then fallback else text)).data then
    ["US_TOP10", "CN_TOP10"]
  else
    (dedupParts []
      (((splitSeps (normalizeQuery (if strTrim fallback ≠ "" then fallback else text)).data).map
          (fun cs => strTrim cs.asString)).filter (fun s => s ≠ ""))).take 3

/-! ### Company resolution, `server/src/services/company.js` and `companyCN.js` -/

/-- The regex replace `name.replace(/股份有限(公司)?|有限公司/g, "")` of
`resolveFromLocal` (the alternation is greedy, so `股份有限公司` is removed
as a whole). -/
def stripCorpSuffixes : List Char → List Char
  | '股' :: '份' :: '有' :: '限' :: '公' :: '司' :: rest => stripCorpSuffixes rest
  | '股' :: '份' :: '有' :: '限' :: rest => stripCorpSuffixes rest
  | '有' :: '限' :: '公' :: '司' :: rest => stripCorpSuffixes rest
  | c :: rest => c :: stripCorpSuffixes rest
  | [] => []

/-- `code.replace(/\.(SZ|SH)$/, "")` (applied to the already-uppercased
code, so the pattern is case-sensitive there). -/
def stripSZSHSuffix (code : String) : String :=
  match code.data.reverse with
  | z :: s :: '.' :: rest =>
      if (z = 'Z' ∨ z = 'H') ∧ s = 'S' then (rest.reverse).asString else code
  | _ => code

/-- `/\.(SZ|SH)$/i.test(q)` of `isLikelyCNCompany`. -/
def endsWithDotSZSH (t : String) : Bool :=
  match t.data.reverse with
  | z :: s :: d :: _ =>
      (z.toLower = 'z' ∨ z.toLower = 'h') ∧ s.toLower = 's' ∧ d = '.'
  | _ => false

/-- `/[一-龥]/` CJK test of `isLikelyCNCompany`. -/
def isCJKChar (c : Char) : Bool := 0x4e00 ≤ c.toNat ∧ c.toNat ≤ 0x9fa5

/-- `isLikelyCNCompany(query)` from `companyCN.js`. -/
def isLikelyCNCompany (query : String) : Bool :=
  if query = "" then false
  else
    (strTrim query).data.any isCJKChar || endsWithDotSZSH (strTrim query) ||
      ((strTrim query).data.length = 6 && (strTrim query).data.all (fun c => c.isDigit))

/-- One entry of the local `cn_stocks.json` list. -/
structure CnStock where
  code : String
  name : String
  market : String
deriving DecidableEq, Repr

/-- The `{name, code, market, source}` result of the CN resolvers. -/
structure CnResolved where
  name : String
  code : String
  market : String
  source : String
deriving DecidableEq, Repr

/-- The scoring block of `resolveFromLocal`. -/
def scoreStock (q : String) (stock : CnStock) : Int :=
  if strUpper stock.code = q ∨ stripSZSHSuffix (strUpper stock.code) = q then 100
  else if strUpper stock.name = q then 90
  else if strIncludes (strUpper stock.name) q then 50
  else if strIncludes (strTrim (stripCorpSuffixes (strUpper stock.name).data).asString) q then 40
  else if strIncludes q (strTrim (stripCorpSuffixes (strUpper stock.name).data).asString) ||
      strIncludes (strTrim (stripCorpSuffixes (strUpper stock.name).data).asString) q then 30
  else 0

/-- `resolveFromLocal(query)` from `companyCN.js`: best-scoring stock (first
wins on ties, initial best score `-1`), accepted at score `≥ 30`; the market
falls back to the code's exchange suffix. -/
def resolveFromLocal (stockList : Option (List CnStock)) (query : String) : Option CnResolved :=
  match stockList with
  | none => none
  | some stocks =>
      if strUpper (strTrim query) = "" then none
      else
        match stocks.foldl (fun (acc : Int × Option CnStock) stock =>
            if scoreStock (strUpper (strTrim query)) stock > acc.1 then
              (scoreStock (strUpper (strTrim query)) stock, some stock)
            else acc) (-1, none) with
        | (bestScore, some bm) =>
            if bestScore ≥ 30 then
              some ⟨bm.name, bm.code,
                (if bm.market ≠ "" then bm.market
                 else if strIncludes bm.code ".SZ" then "SZ" else "SH"),
                "local_json"⟩
            else none
        | (_, none) => none

/-- One row of the Tushare `stock_basic` response. -/
structure TushareStock where
  tsCode : String
  symbol : String
  name : String
deriving DecidableEq, Repr

/-- The match condition of `resolveFromTushare`. -/
def tushareMatches (q : String) (item : TushareStock) : Bool :=
  strUpper item.tsCode = q ∨ strUpper item.symbol = q ∨ strUpper item.name = q ∨
    strIncludes (strUpper item.name) q ∨ strIncludes q (strUpper item.name)

/-- `resolveFromTushare(query)`: first matching listed stock; `items` is the
collaborator response (`none` for no token or a failed call). -/
def resolveFromTushare (items : Option (List TushareStock)) (query : String) :
    Option CnResolved :=
  match items with
  | none => none
  | some its =>
      match its.find? (tushareMatches (strUpper (strTrim query))) with
      | some item =>
          some ⟨item.name, strUpper item.tsCode,
            (if strIncludes (strUpper item.tsCode) ".SZ" then "SZ" else "SH"), "tushare_api"⟩
      | none => none

/-- `resolveCompanyCN({query, ...})`: local JSON first, then Tushare when a
token is configured. -/
def resolveCompanyCN (stockList : Option (List CnStock)) (hasToken : Bool)
    (tushareItems : Option (List TushareStock)) (query : String) : Option CnResolved :=
  if query = "" then none
  else
    match resolveFromLocal stockList query with
    | some r => some r
    | none => if hasToken then resolveFromTushare tushareItems query else none

/-- The `{name, cik, tickers}` shape of the Go `/sec/resolve` response. -/
structure UsResolved where
  name : String
  cik : String
  tickers : List String
deriving DecidableEq, Repr

/-- The unified `{name, cik, code, tickers, market, source}` company record
of `resolveCompany`. -/
structure Company where
  name : String
  cik : String
  code : String
  tickers : List String
  market : String
  source : String
deriving DecidableEq, Repr

/-- `resolveCompany({query, ...})` from `company.js`: CN resolution for
CN-looking queries, else/then the US resolver (a collaborator returning
`none` on network failure or a non-OK response; an empty cik is rejected),
else a default record carrying the query as name with an empty market. -/
def resolveCompany (stockList : Option (List CnStock)) (hasToken : Bool)
    (tushareItems : Option (List TushareStock)) (usResolve : String → Option UsResolved)
    (query : String) : Company :=
  if query = "" then ⟨"未知公司", "", "", [], "", ""⟩
  else
    match (if isLikelyCNCompany query then
        resolveCompanyCN stockList hasToken tushareItems query else none) with
    | some c => ⟨c.name, "", c.code, [c.code], c.market,
        if c.source ≠ "" then c.source else "cn_local"⟩
    | none =>
        match usResolve query with
        | some u =>
            if u.cik ≠ "" then ⟨u.name, u.cik, "", u.tickers, "US", "sec_api"⟩
            else ⟨query, "", "", [], "", ""⟩
        | none => ⟨query, "", "", [], "", ""⟩

/-- The target list produced by the compare branch: one `resolveCompany`
call per split part. -/
def resolveTargets (stockList : Option (List CnStock)) (hasToken : Bool)
    (tushareItems : Option (List TushareStock)) (usResolve : String → Option UsResolved)
    (message fallback : String) : List Company :=
  (splitCompareTargets message fallback).map
    (resolveCompany stockList hasToken tushareItems usResolve)

theorem dedupParts_nodup : ∀ (ps acc : List String), acc.Nodup → (dedupParts acc ps).Nodup := by
  intro ps
  induction ps with
  | nil => intro acc h; exact h
  | cons p ps ih =>
      intro acc h
      show (if stripDuibi p ≠ "" ∧ stripDuibi p ∉ acc then
          dedupParts (acc ++ [stripDuibi p]) ps else dedupParts acc ps).Nodup
      split_ifs with hc
      · refine ih _ ?_
        rw [List.nodup_append]
        exact ⟨h, List.nodup_singleton _, by
          intro a ha hb
          rw [List.mem_singleton] at hb
          rw [hb] at ha
          exact hc.2 ha⟩
      · exact ih acc h

theorem splitCompareTargets_nodup (text fallback : String) :
    (splitCompareTargets text fallback).Nodup := by
  unfold splitCompareTargets
  split_ifs
  all_goals
    first
      | decide
      | exact (dedupParts_nodup _ [] List.nodup_nil).sublist (List.take_sublist _ _)

theorem splitCompareTargets_length_le (text fallback : String) :
    (splitCompareTargets text fallback).length ≤ 3 := by
  unfold splitCompareTargets
  split_ifs
  all_goals
    first
      | decide
      | (rw [List.length_take]; exact min_le_left _ _)

/-- C8: (amended) target resolution deduplicates by the *literal split
token* (after stripping a leading `对比`), capped at 3 tokens — not by
`(market, symbol)`: distinct tokens resolving to the same company produce
duplicate targets (see `c8_counterexample`).  `"300750.SZ 300750.SZ"`
nevertheless resolves to exactly 1 target, because a plain space is not a
separator of the split regex and the text stays a single token. -/
theorem c8_theorem :
    (∀ text fallback, (splitCompareTargets text fallback).Nodup ∧
        (splitCompareTargets text fallback).length ≤ 3)
  ∧ (resolveTargets (some [⟨"300750.SZ", "宁德时代", "SZ"⟩]) false none (fun _ => none)
        "300750.SZ 300750.SZ" "").length = 1 :=
  ⟨fun text fallback =>
    ⟨splitCompareTargets_nodup text fallback, splitCompareTargets_length_le text fallback⟩,
   by set_option maxHeartbeats 4000000 in decide⟩

/-- C8: counterexample to the claim as stated.  The two distinct tokens of
`"300750.SZ、300750"` both resolve to the same `(market, symbol)` pair
`(SZ, 300750.SZ)`, yet the resolved list keeps both — it is deduplicated by
token text, not by `(market, symbol)`. -/
theorem c8_counterexample :
    (resolveTargets (some [⟨"300750.SZ", "宁德时代", "SZ"⟩]) false none (fun _ => none)
        "300750.SZ、300750" "").map (fun c => (c.market, c.code)) =
      [("SZ", "300750.SZ"), ("SZ", "300750.SZ")] := by
  set_option maxHeartbeats 4000000 in decide

/-! ### The compare branch of `/api/chat`, `server/src/index.js` lines 168-203 -/

/-- One element of `evidence.compare`: the resolved company and its fetched
financials (`fin: null` when no market matched). -/
structure CompareEntry where
  company : Company
  fin : Option FinResult
deriving DecidableEq, Repr

/-- Outcome type for a comparison-route turn.  The spec's error taxonomy
(§7) includes `InsufficientTargets`; the source's compare branch only ever
produces `ok`. -/
inductive CompareOutcome where
  | ok : List CompareEntry → CompareOutcome
  | insufficientTargets : CompareOutcome
deriving DecidableEq, Repr

/-- The compare branch of `/api/chat`: split the message into up to 3
targets, resolve each, fetch US financials (by cik) or CN financials (by
code) per market — `finUS` / `finCN` are the fetch collaborators — and push
an entry with `fin = none` for unresolved targets.  The turn then always
proceeds to the answer step with whatever entries it collected: the source
contains no minimum-target check. -/
def compareBranch (stockList : Option (List CnStock)) (hasToken : Bool)
    (tushareItems : Option (List TushareStock)) (usResolve : String → Option UsResolved)
    (finUS finCN : String → FinResult) (message fallback : String) : CompareOutcome :=
  CompareOutcome.ok ((splitCompareTargets message fallback).map (fun q =>
    let c := resolveCompany stockList hasToken tushareItems usResolve q
    if c.market = "US" ∧ c.cik ≠ "" then ⟨c, some (finUS c.cik)⟩
    else if (c.market = "SZ" ∨ c.market = "SH") ∧ c.code ≠ "" then ⟨c, some (finCN c.code)⟩
    else ⟨c, none⟩))

/-- Modelled from the spec: "resolving 0 or 1 targets for a comparison-route
turn must yield `InsufficientTargets`, never a silently single-target
comparison"; "the batch succeeds if at least 2 targets produced data".  No
such guard exists in the source; this definition is used only to compare
the source's behaviour against the claim. -/
def specCompareBranch (stockList : Option (List CnStock)) (hasToken : Bool)
    (tushareItems : Option (List TushareStock)) (usResolve : String → Option UsResolved)
    (finUS finCN : String → FinResult) (message fallback : String) : CompareOutcome :=
  match compareBranch stockList hasToken tushareItems usResolve finUS finCN message fallback with
  | CompareOutcome.ok es =>
      if 2 ≤ es.countP (fun e => e.fin.isSome) then CompareOutcome.ok es
      else CompareOutcome.insufficientTargets
  | o => o

/-- C2: (amended) the compare branch performs no minimum-target check: for
every input it yields `ok` with exactly one entry per split token (at most
3) and proceeds to the answer step, even when 0 or 1 targets produced data;
no `InsufficientTargets` degradation exists in the source. -/
theorem c2_theorem :
    ∀ stockList hasToken tushareItems usResolve finUS finCN message fallback,
      ∃ es, compareBranch stockList hasToken tushareItems usResolve finUS finCN
          message fallback = CompareOutcome.ok es ∧
        es.length = (splitCompareTargets message fallback).length ∧ es.length ≤ 3 := by
  intro stockList hasToken tushareItems usResolve finUS finCN message fallback
  refine ⟨_, rfl, ?_, ?_⟩
  · rw [List.length_map]
  · rw [List.length_map]
    exact splitCompareTargets_length_le message fallback

/-- C2: counterexample to the claim as stated.  The message `"苹果公司"`
splits into a single target that produces no data, yet the source's compare
branch yields a normal `ok` turn with that single entry, where the claimed
guard demands `InsufficientTargets`. -/
theorem c2_counterexample :
    compareBranch none false none (fun _ => none) (fun _ => ⟨[], "", ""⟩) (fun _ => ⟨[], "", ""⟩)
        "苹果公司" "" =
      CompareOutcome.ok [⟨⟨"苹果公司", "", "", [], "", ""⟩, none⟩]
  ∧ specCompareBranch none false none (fun _ => none) (fun _ => ⟨[], "", ""⟩)
        (fun _ => ⟨[], "", ""⟩) "苹果公司" "" = CompareOutcome.insufficientTargets :=
  ⟨by decide, by decide⟩

/-! ### Error propagation to the client, `server/src/index.js` and the
    provider fetchers -/

/-- The `/api/chat` catch handler (`server/src/index.js` lines 327-330):
`res.status(500).json({error: e.message || 'server error'})` — the raw
exception message is echoed to the client, with `'server error'` only when
the message is absent or empty. -/
def chatCatchError (msg : Option String) : String :=
  match msg with
  | none => "server error"
  | some m => if m = "" then "server error" else m

/-- The error thrown by `getFinancialFacts`
(`server/src/services/finance.js` line 37) on a non-OK provider response:
`` `财务数据失败: ${resp.status} ${await resp.text()}` `` — the provider's
status and raw response body are embedded verbatim. -/
def financeFetchErrorMsg (status : Nat) (body : String) : String :=
  "财务数据失败: " ++ toString status ++ " " ++ body

/-- The error thrown by `getFundamentalsEODHD` (`eodhd.js`):
`` `EODHD fundamentals error: ${res.status} ${JSON.stringify(json).slice(0,200)}` ``
— the first 200 characters of the provider's raw JSON response are embedded
verbatim. -/
def eodhdFetchErrorMsg (status : Nat) (bodyJson : String) : String :=
  "EODHD fundamentals error: " ++ toString status ++ " " ++ bodyJson.take 200

/-- Modelled from the spec: the fixed small vocabulary of sanitized
user-facing causes of §4.2 (connection reset, proxy error, DNS failure, auth
failure, malformed payload, timeout, plus the explicit empty-series cause).
No such vocabulary exists anywhere in the source. -/
def sanitizedVocabulary : List String :=
  ["connection reset", "proxy error", "DNS failure", "auth failure",
   "malformed payload", "timeout", "empty series"]

/-- C1: counterexample to the claim as stated.  A provider failure inside
`getFinancialFacts` reaches the client verbatim through the catch handler:
the message is not drawn from the sanitized vocabulary and contains the raw
provider error text including an internal URL (`data.sec.gov`). -/
theorem c1_counterexample :
    sanitizedVocabulary.contains
      (chatCatchError (some (financeFetchErrorMsg 403
        "GET https://data.sec.gov/api/xbrl/companyfacts/CIK0000320193.json status=403 body=Forbidden"))) = false
  ∧ strIncludes
      (chatCatchError (some (financeFetchErrorMsg 403
        "GET https://data.sec.gov/api/xbrl/companyfacts/CIK0000320193.json status=403 body=Forbidden")))
      "https://data.sec.gov" = true :=
  ⟨by decide, by decide⟩

/-- C1: (amended) the `/api/chat` catch handler echoes the exception's
message to the client verbatim (defaulting to `'server error'` only for an
absent or empty message); pipeline errors embed the provider's HTTP status
and raw response text, so raw provider error text and internal URLs can
reach the client — only the stack trace is withheld, since only the
`message` field is echoed.  There is no sanitized-vocabulary mapping. -/
theorem c1_theorem :
    (∀ status body, ∃ pre,
        chatCatchError (some (financeFetchErrorMsg status body)) = pre ++ body)
  ∧ (∀ status body, ∃ pre,
        chatCatchError (some (eodhdFetchErrorMsg status body)) = pre ++ body.take 200) := by
  constructor
  · intro status body
    refine ⟨"财务数据失败: " ++ toString status ++ " ", ?_⟩
    unfold chatCatchError financeFetchErrorMsg
    show (if "财务数据失败: " ++ toString status ++ " " ++ body = "" then "server error"
      else "财务数据失败: " ++ toString status ++ " " ++ body) = _
    rw [if_neg]
    intro he
    have hlen := congrArg String.length he
    rw [String.length_append, String.length_append, String.length_append] at hlen
    have h8 : ("财务数据失败: " : String).length = 8 := by decide
    have hsp : (" " : String).length = 1 := by decide
    have hemp : ("" : String).length = 0 := by decide
    rw [h8, hsp, hemp] at hlen
    omega
  · intro status body
    refine ⟨"EODHD fundamentals error: " ++ toString status ++ " ", ?_⟩
    unfold chatCatchError eodhdFetchErrorMsg
    show (if "EODHD fundamentals error: " ++ toString status ++ " " ++ body.take 200 = ""
      then "server error"
      else "EODHD fundamentals error: " ++ toString status ++ " " ++ body.take 200) = _
    rw [if_neg]
    intro he
    have hlen := congrArg String.length he
    rw [String.length_append, String.length_append, String.length_append] at hlen
    have h26 : ("EODHD fundamentals error: " : String).length = 26 := by decide
    have hsp : (" " : String).length = 1 := by decide
    have hemp : ("" : String).length = 0 := by decide
    rw [h26, hsp, hemp] at hlen
    omega
